import Mathlib

/-!
Verification of the Ark bytecode compiler and virtual machine core
(`src/arkreactor/Compiler/Compiler.cpp`, `include/Ark/VM/VM.hpp`).

The compiler walks an AST (`Node`) and produces byte pages plus symbol,
value and plugin tables, finally serialised into a container with a
content hash.  Pages are lists of bytes (`Nat`, each value < 256 by
construction); errors are modelled with `Except`.
-/

set_option maxHeartbeats 1000000
set_option maxRecDepth 8192
set_option linter.unusedVariables false
set_option linter.unnecessarySeqFocus false

namespace Ark

/-! ## Instruction bytes

Modelled from the spec: `Instructions.hpp` is not part of the sources at
hand; the spec fixes the opcode partitioning (framing bytes, type tags,
one-operand instructions, and primitive operators occupying a contiguous
range starting at `FIRST_OPERATOR`).  Concrete byte values are chosen
distinct and consistent with that layout; no claim depends on the exact
numbers, only on their distinctness and on the operator range. -/

def SYM_TABLE_START : Nat := 0x01
def VAL_TABLE_START : Nat := 0x02
def CODE_SEGMENT_START : Nat := 0x03
def NUMBER_TYPE : Nat := 0x04
def STRING_TYPE : Nat := 0x05
def FUNC_TYPE : Nat := 0x06
def LOAD_SYMBOL : Nat := 0x0a
def LOAD_CONST : Nat := 0x0b
def POP_JUMP_IF_TRUE : Nat := 0x0c
def STORE : Nat := 0x0d
def LET : Nat := 0x0e
def POP_JUMP_IF_FALSE : Nat := 0x0f
def JUMP : Nat := 0x10
def RET : Nat := 0x11
def HALT : Nat := 0x12
def CALL : Nat := 0x13
def CAPTURE : Nat := 0x14
def BUILTIN : Nat := 0x15
def MUT : Nat := 0x16
def DEL : Nat := 0x17
def SAVE_ENV : Nat := 0x18
def GET_FIELD : Nat := 0x19
def PLUGIN : Nat := 0x1a
def LIST : Nat := 0x1b
def APPEND : Nat := 0x1c
def CONCAT : Nat := 0x1d
def APPEND_IN_PLACE : Nat := 0x1e
def CONCAT_IN_PLACE : Nat := 0x1f
def POP_LIST : Nat := 0x40
def POP_LIST_IN_PLACE : Nat := 0x41

def FIRST_OPERATOR : Nat := 0x20

/-- Modelled from the spec: the operator name list (`internal::operators`)
is not in the sources at hand; the spec names the operator instructions
(`ADD, SUB, MUL, DIV, ... MOD, AND_, OR_, NOT ...`) as a contiguous range.
The byte emitted for operator at index `k` is `FIRST_OPERATOR + k`. -/
def operators : List String :=
  ["+", "-", "*", "/", ">", "<", "<=", ">=", "!=", "=",
   "len", "empty?", "firstOf", "tailOf", "headOf", "nil?", "assert",
   "toNumber", "toString", "@", "and", "or", "mod", "not"]

def ADD : Nat := FIRST_OPERATOR
def SUB : Nat := FIRST_OPERATOR + 1
def MUL : Nat := FIRST_OPERATOR + 2
def DIV : Nat := FIRST_OPERATOR + 3
def GT_OP : Nat := FIRST_OPERATOR + 4
def LT_OP : Nat := FIRST_OPERATOR + 5
def AND_ : Nat := FIRST_OPERATOR + 20
def OR_ : Nat := FIRST_OPERATOR + 21
def MOD : Nat := FIRST_OPERATOR + 22
def NOT : Nat := FIRST_OPERATOR + 23

/-- Modelled from the spec: the builtins list (`Builtins::builtins`) is an
external collaborator; only the presence of `"nil"` matters to the
compiler core (empty code blocks compile to `BUILTIN id(nil)`). -/
def builtins : List String := ["false", "true", "nil"]

/-! ## AST -/

inductive Keyword where
  | If | Let | Mut | Set | Fun | Begin | While | Import | Quote | Del
  deriving DecidableEq

/-- AST node (`internal::Node`).  Non-list nodes have an empty child
list, mirroring the C++ `Node`, whose `m_list` is empty unless the node
is a `List`.  `loc` stands for the node's source location. -/
inductive Node where
  | sym (loc : Nat) (name : String)
  | str (s : String)
  | num (n : Int)
  | keyword (k : Keyword)
  | capture (loc : Nat) (name : String)
  | getField (loc : Nat) (name : String)
  | list (children : List Node)

def Node.string : Node → String
  | .sym _ s => s
  | .str s => s
  | .capture _ s => s
  | .getField _ s => s
  | _ => ""

def Node.isGetField : Node → Bool
  | .getField _ _ => true
  | _ => false

def Node.isCapture : Node → Bool
  | .capture _ _ => true
  | _ => false

/-- A compilation error (`CompilationError`); `atNode` corresponds to
`throwCompilerError`, which attaches the offending node (and hence its
source location) via `makeNodeBasedErrorCtx`. -/
inductive CErr where
  | plain (msg : String)
  | atNode (msg : String) (node : Node)

/-- Entry of the value table (`ValTableElem`); equality is structural
including the tag, as in the C++ `operator==`. -/
inductive ValTableElem where
  | number (n : Int)
  | vstring (s : String)
  | pageAddr (p : Nat)
  deriving DecidableEq

/-- `ValTableElem(const Node&)`: a `Number` node yields a number entry,
a `String` node a string entry. -/
def valOfNode (x : Node) : ValTableElem :=
  match x with
  | .num n => .number n
  | _ => .vstring x.string

/-- The compiler's mutable tables and pages (`m_symbols`,
`m_defined_symbols`, `m_plugins`, `m_values`, `m_code_pages`,
`m_temp_pages`). -/
structure CompState where
  symbols : List Node
  definedSymbols : List String
  plugins : List String
  values : List ValTableElem
  codePages : List (List Nat)
  tempPages : List (List Nat)

/-! ## Small helpers -/

/-- Big-endian 16-bit serialisation (`pushNumber` on a `uint16_t`). -/
def u16be (n : Nat) : List Nat := [n / 256 % 256, n % 256]

/-- Linear search by string (used by `addSymbol` and `isOperator` /
`isBuiltin` via `std::find`). -/
def indexOfString (name : String) : List String → Option Nat
  | [] => none
  | s :: rest => if s = name then some 0 else (indexOfString name rest).map (· + 1)

def isOperator (name : String) : Option Nat := indexOfString name operators

def isBuiltin (name : String) : Option Nat := indexOfString name builtins

/-- Modelled from the spec: `Compiler::isSpecific` lives in the missing
`Compiler.inl`; the spec lists the specific forms (`list`, `append`,
`concat`, `pop` and their in-place variants) and the instructions they
map to. -/
def isSpecific (name : String) : Option Nat :=
  if name = "list" then some LIST
  else if name = "append" then some APPEND
  else if name = "concat" then some CONCAT
  else if name = "pop" then some POP_LIST
  else if name = "append!" then some APPEND_IN_PLACE
  else if name = "concat!" then some CONCAT_IN_PLACE
  else if name = "pop!" then some POP_LIST_IN_PLACE
  else none

def containsStr (s : String) : List String → Bool
  | [] => false
  | a :: rest => a = s || containsStr s rest

/-- Linear search over the symbol table comparing names
(`std::find_if` in `addSymbol`). -/
def lookupSymbolIdx (name : String) : List Node → Option Nat
  | [] => none
  | n :: rest =>
      if n.string = name then some 0 else (lookupSymbolIdx name rest).map (· + 1)

/-- Linear search over the value table (`std::find` in `addValue`). -/
def lookupValIdx (v : ValTableElem) : List ValTableElem → Option Nat
  | [] => none
  | w :: rest => if w = v then some 0 else (lookupValIdx v rest).map (· + 1)

/-! ## Page access

Modelled from the spec for the part in the missing `Compiler.inl`:
`page(i)` returns `m_code_pages[i]` for `i >= 0` and a temp page for
negative `i`; the spec says temp pages are "addressed by negative
indices from the top", and `handleCalls` addresses the page it just
pushed (`m_temp_pages.back()`) as `-m_temp_pages.size()`, which forces
`page(i) = m_temp_pages[-i - 1]` for `i < 0`. -/

def getPage (st : CompState) (p : Int) : List Nat :=
  if 0 ≤ p then st.codePages.getD p.toNat []
  else st.tempPages.getD (-p - 1).toNat []

def setPage (st : CompState) (p : Int) (pg : List Nat) : CompState :=
  if 0 ≤ p then { st with codePages := st.codePages.set p.toNat pg }
  else { st with tempPages := st.tempPages.set (-p - 1).toNat pg }

def appendPage (st : CompState) (p : Int) (bs : List Nat) : CompState :=
  setPage st p (getPage st p ++ bs)

/-- Overwrite the two bytes at `pos`, `pos + 1` of page `p` with the
big-endian image of `n` truncated to 16 bits (the back-patching writes
in `compileIf` / `compileWhile`). -/
def patch2 (st : CompState) (p : Int) (pos : Nat) (n : Nat) : CompState :=
  setPage st p (((getPage st p).set pos (n / 256 % 256)).set (pos + 1) (n % 256))

/-- The page index `p` denotes an existing page of `st`. -/
def pageValid (st : CompState) (p : Int) : Prop :=
  if 0 ≤ p then p.toNat < st.codePages.length
  else (-p - 1).toNat < st.tempPages.length

instance (st : CompState) (p : Int) : Decidable (pageValid st p) := by
  unfold pageValid; infer_instance

/-! ## Tables -/

/-- `Compiler::addSymbol`: linear search by name, append on miss; the
returned distance must be `< 65535` or compilation aborts. -/
def addSymbol (st : CompState) (sym : Node) : Except CErr (Nat × CompState) :=
  match lookupSymbolIdx sym.string st.symbols with
  | some i =>
      if i < 65535 then .ok (i, st)
      else .error (.atNode "Too many symbols (exceeds 65\x27536), aborting compilation." sym)
  | none =>
      if st.symbols.length < 65535 then
        .ok (st.symbols.length, { st with symbols := st.symbols ++ [sym] })
      else .error (.atNode "Too many symbols (exceeds 65\x27536), aborting compilation." sym)

/-- `Compiler::addValue(const Node&)`. -/
def addValueNode (st : CompState) (x : Node) : Except CErr (Nat × CompState) :=
  match lookupValIdx (valOfNode x) st.values with
  | some i =>
      if i < 65535 then .ok (i, st)
      else .error (.atNode "Too many values (exceeds 65\x27536), aborting compilation." x)
  | none =>
      if st.values.length < 65535 then
        .ok (st.values.length, { st with values := st.values ++ [valOfNode x] })
      else .error (.atNode "Too many values (exceeds 65\x27536), aborting compilation." x)

/-- `Compiler::addValue(std::size_t, const Node&)`: intern a page
address. -/
def addValuePage (st : CompState) (pageId : Nat) (current : Node) : Except CErr (Nat × CompState) :=
  match lookupValIdx (.pageAddr pageId) st.values with
  | some i =>
      if i < 65535 then .ok (i, st)
      else .error (.atNode "Too many values (exceeds 65\x27536), aborting compilation." current)
  | none =>
      if st.values.length < 65535 then
        .ok (st.values.length, { st with values := st.values ++ [.pageAddr pageId] })
      else .error (.atNode "Too many values (exceeds 65\x27536), aborting compilation." current)

/-- `Compiler::addDefinedSymbol`. -/
def addDefinedSymbol (st : CompState) (s : String) : CompState :=
  if containsStr s st.definedSymbols then st
  else { st with definedSymbols := st.definedSymbols ++ [s] }

/-- `Compiler::countArkObjects`: number of non-`GetField` nodes. -/
def countArkObjects : List Node → Nat
  | [] => 0
  | n :: r => (if n.isGetField then 0 else 1) + countArkObjects r

/-- Argument count of a general call: nodes after the head that are
neither `GetField` nor `Capture` (the `args_count` loop in
`handleCalls`). -/
def countCallArgs : List Node → Nat
  | [] => 0
  | a :: r => (if a.isGetField || a.isCapture then 0 else 1) + countCallArgs r

/-- `Compiler::pushSpecificInstArgc`: operand bytes following a specific
instruction. -/
def pushSpecificInstArgc (inst : Nat) (previous : Nat) : List Nat :=
  if inst = LIST then u16be previous
  else if inst = APPEND ∨ inst = APPEND_IN_PLACE ∨ inst = CONCAT ∨ inst = CONCAT_IN_PLACE then
    u16be (previous - 1)
  else []

/-- Does compiling the argument at this position complete an expression
(the `exp_count` increment condition in `handleCalls`): the next child
is neither `GetField` nor `Capture`, or there is no next child. -/
def chainInc : List Node → Bool
  | [] => true
  | b :: _ => !(b.isGetField || b.isCapture)

/-- Final value of `exp_count` after the operator-argument loop. -/
def chainCount (cnt : Nat) : List Node → Nat
  | [] => cnt
  | _ :: rest => chainCount (if chainInc rest then cnt + 1 else cnt) rest

/-- The operators that may be chained with more than two arguments
(the `switch` in `handleCalls`). -/
def chainAllowed (op : Nat) : Bool :=
  op = ADD || op = SUB || op = DIV || op = MUL || op = MOD || op = AND_ || op = OR_

def opName (op : Nat) : String := operators.getD (op - FIRST_OPERATOR) ""

def chainErrMsg (ec : Nat) (op : Nat) : String :=
  "can not create a chained expression (of length " ++ toString ec ++
    ") for operator `" ++ opName op ++ "\x27. You most likely forgot a `)\x27."

/-! ## Plugin name matching -/

/-- Modelled from the spec: `Utils::splitString` is an external helper;
`splitString(name, ':')[0]` is the prefix of `name` before the first
colon (the whole string when there is none). -/
def splitHead (s : String) : String := (s.split (· = ':')).headD s

/-- Position of the last `'.'` in a character list, if any. -/
def lastDotPos (cs : List Char) : Option Nat :=
  match cs with
  | [] => none
  | c :: rest =>
      match lastDotPos rest with
      | some k => some (k + 1)
      | none => if c = '.' then some 0 else none

/-- Modelled from the spec: `std::filesystem::path(p).stem()` — the file
name without its final extension (a leading dot does not start an
extension). -/
def pathStem (path : String) : String :=
  let fname := (path.split (· = '/')).getLastD path
  match lastDotPos fname.data with
  | some k => if k = 0 then fname else ⟨fname.data.take k⟩
  | none => fname

/-- `Compiler::mayBeFromPlugin`: the prefix of `name` before the first
colon matches the stem of some recorded plugin path. -/
def mayBeFromPlugin (plugins : List String) (name : String) : Bool :=
  plugins.any (fun plugin => pathStem plugin = splitHead name)

/-- The loop body of `Compiler::checkForUndefinedSymbol`: stop at the
first symbol that is neither defined nor plausibly from a plugin. -/
def checkSyms (defined : List String) (plugins : List String) : List Node → Except CErr Unit
  | [] => .ok ()
  | sym :: rest =>
      if !containsStr sym.string defined && !mayBeFromPlugin plugins sym.string then
        .error (.atNode "Unbound variable error (variable is used but not defined)" sym)
      else checkSyms defined plugins rest

/-- `Compiler::checkForUndefinedSymbol`. -/
def checkForUndefinedSymbol (st : CompState) : Except CErr Unit :=
  checkSyms st.definedSymbols st.plugins st.symbols

/-! ## Loops of `compileFunction` (no recursion into `_compile`) -/

/-- The capture loop of `compileFunction`: for each `Capture` parameter,
check it is already defined (else error), emit `CAPTURE id` on page `p`
and register the name as defined. -/
def compileCaptures (ps : List Node) (p : Int) (st : CompState) : Except CErr CompState :=
  match ps with
  | [] => .ok st
  | n :: rest =>
      match n with
      | .capture _ s =>
          if containsStr s st.definedSymbols then do
            let st₁ := addDefinedSymbol st s
            let (vid, st₂) ← addSymbol st₁ n
            compileCaptures rest p (appendPage st₂ p ([CAPTURE] ++ u16be vid))
          else
            .error (.atNode ("Can not capture " ++ s ++ " because it is referencing an unbound variable.") n)
      | _ => compileCaptures rest p st

/-- The parameter loop of `compileFunction`: for each `Symbol`
parameter, emit `MUT id` on the function's page and register the name
as defined. -/
def compileParams (ps : List Node) (pageId : Nat) (st : CompState) : Except CErr CompState :=
  match ps with
  | [] => .ok st
  | n :: rest =>
      match n with
      | .sym _ s => do
          let (vid, st₁) ← addSymbol st n
          let st₂ := addDefinedSymbol st₁ s
          compileParams rest pageId (appendPage st₂ (Int.ofNat pageId) ([MUT] ++ u16be vid))
      | _ => compileParams rest pageId st

def Node.constList : Node → List Node
  | .list l => l
  | _ => []

/-- Index of the nil builtin (`isBuiltin("nil").value()`). -/
def nilBuiltinIdx : Nat := (isBuiltin "nil").getD 0

/-- Code emitted for an empty code block. -/
def emitNil (st : CompState) (p : Int) : Except CErr CompState :=
  .ok (appendPage st p ([BUILTIN] ++ u16be nilBuiltinIdx))

/-! ## Size facts used for termination of the compiler recursion -/

def one_le_sizeOf_node : ∀ (x : Node), 1 ≤ sizeOf x := by
  intro x; cases x <;> simp <;> omega

def one_le_sizeOf_nodes : ∀ (l : List Node), 1 ≤ sizeOf l := by
  intro l; cases l <;> simp <;> omega

def sizeOf_append_nodes : ∀ (l₁ l₂ : List Node), sizeOf (l₁ ++ l₂) + 1 = sizeOf l₁ + sizeOf l₂ := by
  intro l₁ l₂
  induction l₁ with
  | nil => simp; omega
  | cons a t ih => simp only [List.cons_append, List.cons.sizeOf_spec]; omega

def sizeOf_reverse_nodes : ∀ (l : List Node), sizeOf l.reverse = sizeOf l := by
  intro l
  induction l with
  | nil => simp
  | cons a t ih =>
      have h := sizeOf_append_nodes t.reverse [a]
      simp only [List.reverse_cons, List.cons.sizeOf_spec]
      simp only [List.cons.sizeOf_spec, List.nil.sizeOf_spec] at h
      omega

def sizeOf_splitWhile : ∀ (q : Node → Bool) (l : List Node),
    sizeOf (l.takeWhile q) + sizeOf (l.dropWhile q) = sizeOf l + 1 := by
  intro q l
  have h := sizeOf_append_nodes (l.takeWhile q) (l.dropWhile q)
  rw [List.takeWhile_append_dropWhile] at h
  omega

/-! ## The compiler recursion (`Compiler::_compile` and its loops) -/

mutual

/-- Shallow embedding of `Compiler::_compile`: dispatch on the node
kind, emitting bytes onto page `p`.  Out-of-bounds child accesses of
the C++ (malformed keyword forms) are modelled as `model:` errors. -/
def _compile (x : Node) (p : Int) (st : CompState) : Except CErr CompState :=
  match x with
  | .sym loc name =>
      -- compileSymbol: builtin, then operator, then var-use
      match isBuiltin name with
      | some b => .ok (appendPage st p ([BUILTIN] ++ u16be b))
      | none =>
          match isOperator name with
          | some k => .ok (appendPage st p [FIRST_OPERATOR + k])
          | none => do
              let (i, st₁) ← addSymbol st (.sym loc name)
              .ok (appendPage st₁ p ([LOAD_SYMBOL] ++ u16be i))
  | .getField loc name => do
      let (i, st₁) ← addSymbol st (.getField loc name)
      .ok (appendPage st₁ p ([GET_FIELD] ++ u16be i))
  | .str s => do
      let (i, st₁) ← addValueNode st (.str s)
      .ok (appendPage st₁ p ([LOAD_CONST] ++ u16be i))
  | .num n => do
      let (i, st₁) ← addValueNode st (.num n)
      .ok (appendPage st₁ p ([LOAD_CONST] ++ u16be i))
  | .keyword _ => emitNil st p
  | .capture _ _ => emitNil st p
  | .list [] => emitNil st p
  | .list (c0 :: args) =>
      match c0 with
      | .sym loc name =>
          match isSpecific name with
          | some inst =>
              -- compileSpecific
              let argc := (countArkObjects (.sym loc name :: args) - 1) % 65536
              if argc < 2 ∧ inst ≠ LIST then
                .error (.plain ("can not use " ++ name ++ " with less than 2 arguments"))
              else do
                let st₁ ← compileSpecArgs args.reverse p st
                .ok (appendPage st₁ p ([inst] ++ pushSpecificInstArgc inst argc))
          | none => handleCalls (.sym loc name) args p st
      | .keyword kw =>
          match kw with
          | .If =>
              match args with
              | cond :: thenN :: rest => do
                  let st₁ ← _compile cond p st
                  let jumpToIfPos := (getPage st₁ p).length + 1
                  let st₂ := appendPage st₁ p ([POP_JUMP_IF_TRUE] ++ u16be 0)
                  let st₃ ←
                    match rest with
                    | [els] => _compile els p st₂
                    | _ => .ok st₂
                  let jumpToEndPos := (getPage st₃ p).length + 1
                  let st₄ := appendPage st₃ p ([JUMP] ++ u16be 0)
                  let st₅ := patch2 st₄ p jumpToIfPos (getPage st₄ p).length
                  let st₆ ← _compile thenN p st₅
                  .ok (patch2 st₆ p jumpToEndPos (getPage st₆ p).length)
              | _ => .error (.plain "model: out-of-bounds child access in compileIf")
          | .Let =>
              match args with
              | nameNode :: vals => do
                  let (i, st₁) ← addSymbol st nameNode
                  let st₂ := addDefinedSymbol st₁ nameNode.string
                  let st₃ ← compileSeq vals p st₂
                  .ok (appendPage st₃ p ([LET] ++ u16be i))
              | _ => .error (.plain "model: out-of-bounds child access in compileLetMut")
          | .Mut =>
              match args with
              | nameNode :: vals => do
                  let (i, st₁) ← addSymbol st nameNode
                  let st₂ := addDefinedSymbol st₁ nameNode.string
                  let st₃ ← compileSeq vals p st₂
                  .ok (appendPage st₃ p ([MUT] ++ u16be i))
              | _ => .error (.plain "model: out-of-bounds child access in compileLetMut")
          | .Set =>
              match args with
              | nameNode :: vals => do
                  let (i, st₁) ← addSymbol st nameNode
                  let st₂ ← compileSeq vals p st₁
                  .ok (appendPage st₂ p ([STORE] ++ u16be i))
              | _ => .error (.plain "model: out-of-bounds child access in compileSet")
          | .Fun =>
              match args with
              | params :: body :: rest2 => do
                  let st₁ ← compileCaptures params.constList p st
                  let pageId := st₁.codePages.length
                  let st₂ := { st₁ with codePages := st₁.codePages ++ [[]] }
                  let (cid, st₃) ← addValuePage st₂ pageId (.list (.keyword .Fun :: params :: body :: rest2))
                  let st₄ := appendPage st₃ p ([LOAD_CONST] ++ u16be cid)
                  let st₅ ← compileParams params.constList pageId st₄
                  let st₆ ← _compile body (Int.ofNat pageId) st₅
                  .ok (appendPage st₆ (Int.ofNat pageId) [RET])
              | _ => .error (.plain "model: out-of-bounds child access in compileFunction")
          | .Begin => compileSeq args p st
          | .While =>
              match args with
              | cond :: body :: _ => do
                  let current := (getPage st p).length
                  let st₁ ← _compile cond p st
                  let jumpToEndPos := (getPage st₁ p).length + 1
                  let st₂ := appendPage st₁ p ([POP_JUMP_IF_FALSE] ++ u16be 0)
                  let st₃ ← _compile body p st₂
                  let st₄ := appendPage st₃ p ([JUMP] ++ u16be current)
                  .ok (patch2 st₄ p jumpToEndPos (getPage st₄ p).length)
              | _ => .error (.plain "model: out-of-bounds child access in compileWhile")
          | .Import =>
              match args with
              | pathNode :: _ => do
                  let (vid, st₁) ← addValueNode st pathNode
                  let st₂ := { st₁ with plugins := st₁.plugins ++ [pathNode.string] }
                  .ok (appendPage st₂ p ([PLUGIN] ++ u16be vid))
              | _ => .error (.plain "model: out-of-bounds child access in compilePluginImport")
          | .Quote =>
              match args with
              | q :: rest2 => do
                  let pageId := st.codePages.length
                  let st₁ := { st with codePages := st.codePages ++ [[]] }
                  let st₂ ← _compile q (Int.ofNat pageId) st₁
                  let st₃ := appendPage st₂ (Int.ofNat pageId) [RET]
                  let (vid, st₄) ← addValuePage st₃ pageId (.list (.keyword .Quote :: q :: rest2))
                  .ok (appendPage st₄ p ([LOAD_CONST] ++ u16be vid))
              | _ => .error (.plain "model: out-of-bounds child access in compileQuote")
          | .Del =>
              match args with
              | nameNode :: _ => do
                  let (i, st₁) ← addSymbol st nameNode
                  .ok (appendPage st₁ p ([DEL] ++ u16be i))
              | _ => .error (.plain "model: out-of-bounds child access in compileDel")
      | other => handleCalls other args p st
termination_by sizeOf x
decreasing_by
all_goals simp_wf
all_goals try omega
all_goals try (rw [sizeOf_reverse_nodes]; omega)

/-- Sequential compilation of children onto one page (the plain loops
of `_compile`: `Begin` children, `putValue`, call arguments). -/
def compileSeq (l : List Node) (p : Int) (st : CompState) : Except CErr CompState :=
  match l with
  | [] => .ok st
  | a :: rest => do
      let st₁ ← _compile a p st
      compileSeq rest p st₁
termination_by sizeOf l
decreasing_by
all_goals simp_wf
all_goals omega

/-- The reverse-order argument loop of `compileSpecific`, acting on the
reversed argument list: take the trailing run of `GetField` children,
compile the base expression they attach to, then the run in source
order, and continue.  The C++ loop indexes `list[65535]` out of bounds
(a `uint16_t` underflow) when a `GetField` run reaches the list head;
that undefined behaviour is modelled as an error. -/
def compileSpecArgs (l : List Node) (p : Int) (st : CompState) : Except CErr CompState :=
  match hh : l.dropWhile Node.isGetField with
  | [] =>
      match l with
      | [] => .ok st
      | _ :: _ => .error (.plain "model: index underflow in compileSpecific reverse loop")
  | b :: rest => do
      let st₁ ← _compile b p st
      let st₂ ← compileSeq (l.takeWhile Node.isGetField).reverse p st₁
      compileSpecArgs rest p st₂
termination_by sizeOf l
decreasing_by
all_goals simp_wf
all_goals
  (have h1 := sizeOf_splitWhile Node.isGetField l
   rw [hh] at h1
   have h3 := one_le_sizeOf_nodes rest
   have h4 := one_le_sizeOf_node b
   have h5 := one_le_sizeOf_nodes (l.takeWhile Node.isGetField)
   simp only [List.cons.sizeOf_spec] at h1
   try rw [sizeOf_reverse_nodes]
   omega)

/-- The operator-argument loop of `handleCalls`: compile each argument,
maintain `exp_count`, and append the operator byte once `exp_count`
reaches two. -/
def compileChain (op : Nat) (p : Int) (cnt : Nat) (l : List Node) (st : CompState) : Except CErr CompState :=
  match l with
  | [] => .ok st
  | a :: rest => do
      let st₁ ← _compile a p st
      let cnt' := if chainInc rest then cnt + 1 else cnt
      let st₂ := if 2 ≤ cnt' then appendPage st₁ p [op] else st₁
      compileChain op p cnt' rest st₂
termination_by sizeOf l
decreasing_by
all_goals simp_wf
all_goals omega

/-- `Compiler::handleCalls`: compile the callee (and any directly
following `GetField` chain) onto a fresh temp page; a one-byte temp
page is an operator, anything longer a builtin or function call. -/
def handleCalls (c0 : Node) (args : List Node) (p : Int) (st : CompState) : Except CErr CompState := do
  let st₁ := { st with tempPages := st.tempPages ++ [[]] }
  let procPage : Int := -(st₁.tempPages.length : Int)
  let st₂ ← _compile c0 procPage st₁
  let st₃ ← compileSeq (args.takeWhile Node.isGetField) procPage st₂
  let rest := args.dropWhile Node.isGetField
  let tempPg := st₃.tempPages.getLastD []
  if 1 < tempPg.length then do
    let st₄ ← compileSeq rest p st₃
    let st₅ := appendPage st₄ p (st₄.tempPages.getLastD [])
    let st₆ := { st₅ with tempPages := st₅.tempPages.dropLast }
    .ok (appendPage st₆ p ([CALL] ++ u16be (countCallArgs args)))
  else
    match tempPg with
    | [] => .error (.plain "model: empty callee page in handleCalls")
    | op :: _ => do
        let st₄ := { st₃ with tempPages := st₃.tempPages.dropLast }
        let st₅ ← compileChain op p 0 rest st₄
        let ec := chainCount 0 rest
        let st₆ := if ec = 1 then appendPage st₅ p [op] else st₅
        if 2 < ec ∧ chainAllowed op = false then
          .error (.atNode (chainErrMsg ec op) (.list (c0 :: args)))
        else .ok st₆
termination_by sizeOf c0 + sizeOf args
decreasing_by
all_goals simp_wf
all_goals
  (have h1 := sizeOf_splitWhile Node.isGetField args
   have h2 := one_le_sizeOf_nodes (args.dropWhile Node.isGetField)
   have h3 := one_le_sizeOf_nodes (args.takeWhile Node.isGetField)
   have h4 := one_le_sizeOf_node c0
   have h5 := one_le_sizeOf_nodes args
   omega)

end

/-- The emission scheme the specification describes for a chained
operator call `(op A B C D ...)`: compile each argument in source
order and emit the operator byte after the second and each subsequent
argument.  Written from the claim's words, to be compared with the
source-derived `compileChain`. -/
def chainSpecCompile (op : Nat) (p : Int) (idx : Nat) (l : List Node) (st : CompState) : Except CErr CompState :=
  match l with
  | [] => .ok st
  | a :: rest => do
      let st₁ ← _compile a p st
      let st₂ := if 2 ≤ idx + 1 then appendPage st₁ p [op] else st₁
      chainSpecCompile op p (idx + 1) rest st₂

/-! ## The container (`Compiler::compile`, `pushHeadersPhase1/2`) -/

/-- The eight big-endian timestamp bytes of the header. -/
def tsBytes (ts : Nat) : List Nat :=
  [ts / 2 ^ 56 % 256, ts / 2 ^ 48 % 256, ts / 2 ^ 40 % 256, ts / 2 ^ 32 % 256,
   ts / 2 ^ 24 % 256, ts / 2 ^ 16 % 256, ts / 2 ^ 8 % 256, ts % 256]

/-- `pushHeadersPhase1`: magic `a r k 0`, three u16 version numbers, and
the 8-byte timestamp — 18 bytes in total. -/
def headerBytes (maj minor patch ts : Nat) : List Nat :=
  [97, 114, 107, 0] ++ u16be maj ++ u16be minor ++ u16be patch ++ tsBytes ts

/-- Byte image of a string (each symbol / string payload is pushed
byte by byte). -/
def strBytes (s : String) : List Nat := s.data.map Char.toNat

/-- Symbol-table serialisation of `pushHeadersPhase2`. -/
def symTableBytes (syms : List Node) : List Nat :=
  [SYM_TABLE_START] ++ u16be syms.length ++
    (syms.map (fun n => strBytes n.string ++ [0])).flatten

/-- One value-table entry: tag byte, payload, NUL.  The C++ serialises
numbers through `std::to_string` on a `double`; numbers are modelled as
integers so the payload is their decimal image. -/
def valBytes : ValTableElem → List Nat
  | .number n => [NUMBER_TYPE] ++ strBytes (toString n) ++ [0]
  | .vstring s => [STRING_TYPE] ++ strBytes s ++ [0]
  | .pageAddr pid => [FUNC_TYPE] ++ u16be pid ++ [0]

/-- Value-table serialisation of `pushHeadersPhase2`. -/
def valTableBytes (vals : List ValTableElem) : List Nat :=
  [VAL_TABLE_START] ++ u16be vals.length ++ (vals.map valBytes).flatten

def tableBytes (st : CompState) : List Nat :=
  symTableBytes st.symbols ++ valTableBytes st.values

/-- The code-segment region of `compile()`: each page framed by
`CODE_SEGMENT_START`, the u16 length `page.size() + 1`, the page bytes
and a trailing `HALT`; when there are no pages at all, a single segment
holding just `HALT`. -/
def codeSegments (pages : List (List Nat)) : List Nat :=
  (pages.map (fun pg => [CODE_SEGMENT_START] ++ u16be (pg.length + 1) ++ pg ++ [HALT])).flatten ++
    (if pages.length = 0 then [CODE_SEGMENT_START] ++ u16be 1 ++ [HALT] else [])

/-- The state `compile()` starts from: one empty code page. -/
def initialState : CompState := ⟨[], [], [], [], [[]], []⟩

/-- The compilation passes of `compile()` before serialisation: lower
the AST onto page 0, then run the undefined-symbol check. -/
def compileToState (ast : Node) : Except CErr CompState := do
  let st ← _compile ast 0 initialState
  match checkForUndefinedSymbol st with
  | .error e => .error e
  | .ok _ => .ok st

/-- `Compiler::compile`: header, then (after lowering and the symbol
check) tables and code segments, with the SHA-256 of everything after
the 18-byte header inserted immediately after the header.  The hash
function itself (`picosha2`) is an external collaborator and is passed
as a parameter; the version numbers and timestamp likewise. -/
def compile (hash : List Nat → List Nat) (maj minor patch ts : Nat) (ast : Node) : Except CErr (List Nat) :=
  (compileToState ast).map (fun st =>
    let body := tableBytes st ++ codeSegments st.codePages
    headerBytes maj minor patch ts ++ hash body ++ body)

/-! ## The virtual machine (`include/Ark/VM/VM.hpp`) -/

/-- Runtime value.  Modelled from the spec: `Value.hpp` is not among the
sources at hand; only the `Undefined` sentinel and distinguishability of
values matter to the claims.  A closure's captured scope is handled at
the state level (`savedScope` / the `call` parameters). -/
inductive Value where
  | undefined
  | nil
  | vtrue
  | vfalse
  | number (n : Int)
  | vstr (s : String)
  | closure (pageId : Nat)
  | builtin (id : Nat)
  deriving DecidableEq

/-- A scope: one slot per symbol id (`internal::Scope_t`). -/
abbrev Scope := List Value

/-- Execution frame (`internal::Frame`): return instruction offset and
page id, the stack base, and the `scope_count_to_delete` counter. -/
structure Frame where
  callerAddr : Nat
  callerPageAddr : Nat
  stackBase : Nat
  scopeCountToDelete : Nat
  deriving DecidableEq

/-- The VM execution state (`VM_t`): instruction pointer, page pointer,
value stack (head is the top), frame stack, scope chain (`m_locals`,
last element is the innermost scope), the `saved_scope` slot and
`m_last_sym_loaded`. -/
structure VMState where
  ip : Nat
  pp : Nat
  stack : List Value
  frames : List Frame
  locals : List Scope
  savedScope : Option Scope
  lastSymLoaded : Nat
  deriving DecidableEq

def modifyLastFrame (f : Frame → Frame) : List Frame → List Frame
  | [] => []
  | [fr] => [f fr]
  | fr :: rest => fr :: modifyLastFrame f rest

/-- `VM_t::returnFromFuncCall`: pop the active frame, read
`scopeCountToDelete` from the frame now on top (a `uint8_t` read, hence
the `% 256`), pop one scope plus that many more, and reset the counter
of the frame on top. -/
def returnFromFuncCall (st : VMState) : VMState :=
  let frames₁ := st.frames.dropLast
  let del := ((frames₁.getLast?.map Frame.scopeCountToDelete).getD 0) % 256
  let locals₁ := st.locals.dropLast
  { st with
    frames := modifyLastFrame (fun fr => { fr with scopeCountToDelete := 0 }) frames₁,
    locals := locals₁.take (locals₁.length - del) }

/-- `VM_t::findNearestVariable`'s walk over the reversed scope chain:
return the slot value of the first scope whose slot `id` is not the
`Undefined` sentinel. -/
def findNearestAux (id : Nat) : List Scope → Option Value
  | [] => none
  | sc :: rest =>
      if sc.getD id .undefined ≠ .undefined then some (sc.getD id .undefined)
      else findNearestAux id rest

/-- `VM_t::findNearestVariable`: iterate `m_locals` from `rbegin` to
`rend`, i.e. from the innermost scope to the outermost. -/
def findNearestVariable (id : Nat) (locals : List Scope) : Option Value :=
  findNearestAux id locals.reverse

/-- Modelled from the spec: `loadSymbol` lives in the missing `VM.inl`.
Spec: look up the nearest scope whose slot `id` is not `Undefined`;
push that value and remember `id` in `last_sym_loaded`; fail if not
found. -/
def loadSymbol (id : Nat) (st : VMState) : Except String VMState :=
  match findNearestVariable id st.locals with
  | some v => .ok { st with stack := v :: st.stack, lastSymLoaded := id }
  | none => .error "unbound variable"

/-- Modelled from the spec: `call` lives in the missing `VM.inl`.  Spec
for calling a closure: pop the callee and `argc` arguments, push a new
frame referencing the current `pp`/`ip` and stack depth, push the
captured scope (when the closure has one) and then a fresh scope on
top, incrementing `scope_count_to_delete` so that the return path pops
every scope this call pushed, push the arguments back in reverse order
and jump to the closure's page. -/
def callClosure (st : VMState) (argc : Nat) (pageId : Nat) (captured : Option Scope) (scopeSize : Nat) : VMState :=
  let args := (st.stack.drop 1).take argc
  let stack₁ := st.stack.drop (1 + argc)
  let newFrame : Frame := ⟨st.ip, st.pp, stack₁.length, 0⟩
  let frames₁ :=
    match captured with
    | some _ =>
        modifyLastFrame
          (fun fr => { fr with scopeCountToDelete := fr.scopeCountToDelete + 1 }) st.frames
    | none => st.frames
  { st with
    stack := args.reverse ++ stack₁,
    frames := frames₁ ++ [newFrame],
    locals := st.locals ++ captured.toList ++ [List.replicate scopeSize Value.undefined],
    pp := pageId,
    ip := 0 }

/-- Modelled from the spec: `ret` lives in the missing `VM.inl`.  Spec:
pop a return value (or `Nil` when the stack at the frame base is
empty), pop the active frame and unwind its scopes (delegated to
`returnFromFuncCall`, which is in the sources), restore `pp`/`ip`, and
push the return value. -/
def ret (st : VMState) : VMState :=
  match st.frames.getLast? with
  | none => st
  | some fr =>
      let hasVal := fr.stackBase < st.stack.length
      let rv := if hasVal then st.stack.headD .nil else .nil
      let st₂ := returnFromFuncCall
        { st with stack := if hasVal then st.stack.tail else st.stack }
      { st₂ with ip := fr.callerAddr, pp := fr.callerPageAddr, stack := rv :: st₂.stack }

/-! ## General lemmas about pages and lookups -/

theorem list_set_concat {α} (A : List α) (b v : α) (B : List α) :
    (A ++ b :: B).set A.length v = A ++ v :: B := by
  induction A with
  | nil => simp
  | cons a t ih => simp [List.set, ih]

theorem getD_set_self {α} (l : List α) (i : Nat) (x d : α) (h : i < l.length) :
    (l.set i x).getD i d = x := by
  simp [List.getD, h]

theorem getPage_appendPage (st : CompState) (p : Int) (bs : List Nat) (h : pageValid st p) :
    getPage (appendPage st p bs) p = getPage st p ++ bs := by
  by_cases hp : 0 ≤ p
  · have hlen : p.toNat < st.codePages.length := by simpa [pageValid, hp] using h
    simp [getPage, appendPage, setPage, hp, List.getD, hlen]
  · have hlen : (-p - 1).toNat < st.tempPages.length := by simpa [pageValid, hp] using h
    have hlen2 : (-p).toNat - 1 < st.tempPages.length := by omega
    simp [getPage, appendPage, setPage, hp, List.getD, hlen, hlen2]

theorem getPage_patch2 (st : CompState) (p : Int) (pos n : Nat) (h : pageValid st p) :
    getPage (patch2 st p pos n) p =
      ((getPage st p).set pos (n / 256 % 256)).set (pos + 1) (n % 256) := by
  by_cases hp : 0 ≤ p
  · have hlen : p.toNat < st.codePages.length := by simpa [pageValid, hp] using h
    simp [getPage, patch2, setPage, hp, List.getD, hlen]
  · have hlen : (-p - 1).toNat < st.tempPages.length := by simpa [pageValid, hp] using h
    have hlen2 : (-p).toNat - 1 < st.tempPages.length := by omega
    simp [getPage, patch2, setPage, hp, List.getD, hlen, hlen2]

theorem pageValid_appendPage (st : CompState) (p : Int) (bs : List Nat) (q : Int) :
    pageValid (appendPage st p bs) q ↔ pageValid st q := by
  unfold pageValid appendPage setPage
  split <;> split <;> simp

theorem pageValid_patch2 (st : CompState) (p : Int) (pos n : Nat) (q : Int) :
    pageValid (patch2 st p pos n) q ↔ pageValid st q := by
  unfold pageValid patch2 setPage
  split <;> split <;> simp

theorem lookupSymbolIdx_eq_none (name : String) (L : List Node)
    (h : ∀ n ∈ L, n.string ≠ name) : lookupSymbolIdx name L = none := by
  induction L with
  | nil => rfl
  | cons x t ih =>
      simp only [lookupSymbolIdx]
      rw [if_neg (h x (by simp)), ih (fun n hn => h n (by simp [hn]))]
      rfl

theorem lookupSymbolIdx_append_last (name : String) (L : List Node) (a : Node)
    (h : lookupSymbolIdx name L = none) (ha : a.string = name) :
    lookupSymbolIdx name (L ++ [a]) = some L.length := by
  induction L with
  | nil => simp [lookupSymbolIdx, ha]
  | cons x t ih =>
      simp only [lookupSymbolIdx, List.cons_append, List.append_eq] at h ⊢
      by_cases hx : x.string = name
      · rw [if_pos hx] at h; exact absurd h (by simp)
      · rw [if_neg hx] at h ⊢
        have ht : lookupSymbolIdx name t = none := by
          cases hcase : lookupSymbolIdx name t
          · rfl
          · rw [hcase] at h; exact absurd h (by simp)
        rw [ih ht]
        simp

/-! ## C6 — `addSymbol` -/

/-- C6: `addSymbol` is idempotent by name equality — a second call with
a node of equal symbol name returns the same index and leaves the
symbol table unchanged; a fresh name is appended at index equal to the
previous table length; every returned index lies in `[0, 2^16)`; and
requesting an index for the 65,536th distinct symbol is a compile
error rather than a returned index. -/
theorem addSymbol_props (st : CompState) (a b : Node) (i : Nat) (st₁ : CompState) :
    (addSymbol st a = .ok (i, st₁) → b.string = a.string → addSymbol st₁ b = .ok (i, st₁)) ∧
    ((∀ n ∈ st.symbols, n.string ≠ a.string) → st.symbols.length < 65535 →
      addSymbol st a = .ok (st.symbols.length, { st with symbols := st.symbols ++ [a] })) ∧
    (addSymbol st a = .ok (i, st₁) → i < 65536) ∧
    ((∀ n ∈ st.symbols, n.string ≠ a.string) → st.symbols.length = 65535 →
      (addSymbol st a).isOk = false) := by
  refine ⟨?_, ?_, ?_, ?_⟩
  · intro h hb
    unfold addSymbol at h ⊢
    cases hl : lookupSymbolIdx a.string st.symbols with
    | some j =>
        simp only [hl] at h
        by_cases hj : j < 65535
        · rw [if_pos hj] at h
          simp only [Except.ok.injEq, Prod.mk.injEq] at h
          obtain ⟨hji, hst⟩ := h
          subst hji; subst hst
          simp only [hb, hl]
          rw [if_pos hj]
        · rw [if_neg hj] at h; exact absurd h (by simp)
    | none =>
        simp only [hl] at h
        by_cases hlen : st.symbols.length < 65535
        · rw [if_pos hlen] at h
          simp only [Except.ok.injEq, Prod.mk.injEq] at h
          obtain ⟨hji, hst⟩ := h
          subst hji; subst hst
          have hl2 : lookupSymbolIdx b.string (st.symbols ++ [a]) = some st.symbols.length := by
            rw [hb]
            exact lookupSymbolIdx_append_last a.string st.symbols a hl rfl
          simp only [hl2]
          rw [if_pos hlen]
        · rw [if_neg hlen] at h; exact absurd h (by simp)
  · intro hfresh hlen
    unfold addSymbol
    simp only [lookupSymbolIdx_eq_none a.string st.symbols hfresh]
    rw [if_pos hlen]
  · intro h
    unfold addSymbol at h
    cases hl : lookupSymbolIdx a.string st.symbols with
    | some j =>
        simp only [hl] at h
        by_cases hj : j < 65535
        · rw [if_pos hj] at h
          simp only [Except.ok.injEq, Prod.mk.injEq] at h
          omega
        · rw [if_neg hj] at h; exact absurd h (by simp)
    | none =>
        simp only [hl] at h
        by_cases hlen : st.symbols.length < 65535
        · rw [if_pos hlen] at h
          simp only [Except.ok.injEq, Prod.mk.injEq] at h
          omega
        · rw [if_neg hlen] at h; exact absurd h (by simp)
  · intro hfresh hlen
    unfold addSymbol
    simp only [lookupSymbolIdx_eq_none a.string st.symbols hfresh]
    rw [if_neg (by omega)]
    rfl

/-- Witness for C6 at concrete inputs: a fresh symbol gets index 0 and
is appended; a second insertion of an equal name returns the same
index and the same table; a full table of 65,535 entries rejects a
fresh name. -/
theorem addSymbol_props_witness :
    addSymbol initialState (.sym 0 "x") = .ok (0, ⟨[.sym 0 "x"], [], [], [], [[]], []⟩) ∧
    addSymbol ⟨[.sym 0 "x"], [], [], [], [[]], []⟩ (.sym 1 "x") =
      .ok (0, ⟨[.sym 0 "x"], [], [], [], [[]], []⟩) ∧
    (addSymbol ⟨List.replicate 65535 (.sym 0 "x"), [], [], [], [[]], []⟩ (.sym 0 "y")).isOk = false := by
  have h1 := (addSymbol_props initialState (.sym 0 "x") (.sym 0 "x") 0
      ⟨[.sym 0 "x"], [], [], [], [[]], []⟩).2.1 (by simp [initialState]) (by norm_num [initialState])
  refine ⟨h1, ?_, ?_⟩
  · exact (addSymbol_props initialState (.sym 0 "x") (.sym 1 "x") 0
      ⟨[.sym 0 "x"], [], [], [], [[]], []⟩).1 h1 rfl
  · refine (addSymbol_props ⟨List.replicate 65535 (.sym 0 "x"), [], [], [], [[]], []⟩
      (.sym 0 "y") (.sym 0 "y") 0 initialState).2.2.2 ?_ (List.length_replicate 65535 _)
    intro n hn
    have := List.eq_of_mem_replicate hn
    subst this
    simp [Node.string]

/-! ## C5 — `checkForUndefinedSymbol` -/

theorem containsStr_iff (s : String) (L : List String) : containsStr s L = true ↔ s ∈ L := by
  induction L with
  | nil => simp [containsStr]
  | cons a t ih =>
      simp only [containsStr, Bool.or_eq_true, ih, List.mem_cons, decide_eq_true_eq]
      constructor
      · rintro (h | h)
        · exact Or.inl h.symm
        · exact Or.inr h
      · rintro (h | h)
        · exact Or.inl h.symm
        · exact Or.inr h

theorem mayBeFromPlugin_iff (plugins : List String) (name : String) :
    mayBeFromPlugin plugins name = true ↔ ∃ pl ∈ plugins, pathStem pl = splitHead name := by
  simp [mayBeFromPlugin, List.any_eq_true]

theorem checkSyms_ok_iff (defined plugins : List String) (L : List Node) :
    checkSyms defined plugins L = .ok () ↔
      ∀ sym ∈ L, containsStr sym.string defined = true ∨ mayBeFromPlugin plugins sym.string = true := by
  induction L with
  | nil => simp [checkSyms]
  | cons x t ih =>
      simp only [checkSyms]
      by_cases hx : (!containsStr x.string defined && !mayBeFromPlugin plugins x.string) = true
      · rw [if_pos hx]
        simp only [Bool.and_eq_true, Bool.not_eq_true'] at hx
        constructor
        · intro h; cases h
        · intro h
          rcases h x (by simp) with hc | hm
          · rw [hx.1] at hc; cases hc
          · rw [hx.2] at hm; cases hm
      · rw [if_neg hx, ih]
        simp only [Bool.and_eq_true, Bool.not_eq_true', not_and_or] at hx
        constructor
        · intro h sym hs
          rcases List.mem_cons.mp hs with rfl | hmem
          · rcases hx with h1 | h2
            · exact Or.inl (by simpa using h1)
            · exact Or.inr (by simpa using h2)
          · exact h sym hmem
        · intro h sym hs
          exact h sym (List.mem_cons_of_mem x hs)

theorem checkSyms_error_mem (defined plugins : List String) (L : List Node) (e : CErr)
    (h : checkSyms defined plugins L = .error e) :
    ∃ node ∈ L, e = .atNode "Unbound variable error (variable is used but not defined)" node ∧
      containsStr node.string defined = false ∧ mayBeFromPlugin plugins node.string = false := by
  induction L with
  | nil => cases h
  | cons x t ih =>
      simp only [checkSyms] at h
      by_cases hx : (!containsStr x.string defined && !mayBeFromPlugin plugins x.string) = true
      · rw [if_pos hx] at h
        simp only [Bool.and_eq_true, Bool.not_eq_true'] at hx
        refine ⟨x, by simp, ?_, hx.1, hx.2⟩
        cases h
        rfl
      · rw [if_neg hx] at h
        obtain ⟨node, hmem, he, hc, hm⟩ := ih h
        exact ⟨node, List.mem_cons_of_mem x hmem, he, hc, hm⟩

/-- C5: the undefined-symbol pass raises a compile error exactly when
some name in the symbol table is neither in the defined-symbol set nor
has its prefix before the first colon equal to the file stem of some
plugin entry; the error carries the offending symbol node (and with it
the node's source location). -/
theorem checkForUndefinedSymbol_iff (st : CompState) :
    ((checkForUndefinedSymbol st).isOk = false ↔
      ∃ sym ∈ st.symbols, sym.string ∉ st.definedSymbols ∧
        ¬∃ pl ∈ st.plugins, pathStem pl = splitHead sym.string) ∧
    (∀ e, checkForUndefinedSymbol st = .error e →
      ∃ node ∈ st.symbols,
        e = .atNode "Unbound variable error (variable is used but not defined)" node ∧
          node.string ∉ st.definedSymbols ∧
          ¬∃ pl ∈ st.plugins, pathStem pl = splitHead node.string) := by
  constructor
  · have hiff : (checkForUndefinedSymbol st).isOk = false ↔
        ¬checkForUndefinedSymbol st = .ok () := by
      cases hc : checkForUndefinedSymbol st with
      | ok u => cases u; simp [Except.isOk, Except.toBool, hc]
      | error e => simp [Except.isOk, Except.toBool, hc]
    rw [hiff]
    rw [show checkForUndefinedSymbol st = checkSyms st.definedSymbols st.plugins st.symbols from rfl]
    rw [checkSyms_ok_iff]
    constructor
    · intro hnot
      by_contra hcon
      apply hnot
      intro sym hs
      by_cases hc : containsStr sym.string st.definedSymbols = true
      · exact Or.inl hc
      · by_cases hm : mayBeFromPlugin st.plugins sym.string = true
        · exact Or.inr hm
        · exact absurd
            ⟨sym, hs, fun hmem => hc ((containsStr_iff _ _).mpr hmem),
              fun hex => hm ((mayBeFromPlugin_iff _ _).mpr hex)⟩ hcon
    · rintro ⟨sym, hs, hdef, hplug⟩ hall
      rcases hall sym hs with h | h
      · exact hdef ((containsStr_iff _ _).mp h)
      · exact hplug ((mayBeFromPlugin_iff _ _).mp h)
  · intro e he
    obtain ⟨node, hmem, hnode, hc, hm⟩ := checkSyms_error_mem _ _ _ _ he
    refine ⟨node, hmem, hnode, ?_, ?_⟩
    · intro hmem2
      rw [(containsStr_iff _ _).mpr hmem2] at hc
      cases hc
    · intro hex
      rw [(mayBeFromPlugin_iff _ _).mpr hex] at hm
      cases hm

/-- Witness for C5: a table holding the single symbol `a`, no defined
symbols and no plugins, fails the check. -/
theorem checkForUndefinedSymbol_iff_witness :
    (checkForUndefinedSymbol ⟨[.sym 7 "a"], [], [], [], [[]], []⟩).isOk = false :=
  (checkForUndefinedSymbol_iff ⟨[.sym 7 "a"], [], [], [], [[]], []⟩).1.mpr
    ⟨.sym 7 "a", by simp, by simp, by simp⟩

/-! ## C9 — variable resolution -/

theorem findNearestAux_some_iff (id : Nat) (L : List Scope) (v : Value) :
    findNearestAux id L = some v ↔
      ∃ k, k < L.length ∧ (L.getD k []).getD id .undefined = v ∧ v ≠ .undefined ∧
        ∀ j < k, (L.getD j []).getD id .undefined = .undefined := by
  induction L with
  | nil => simp [findNearestAux]
  | cons sc t ih =>
      simp only [findNearestAux]
      by_cases h : sc.getD id .undefined ≠ .undefined
      · rw [if_pos h]
        constructor
        · intro hv
          injection hv with hv'
          refine ⟨0, by simp, ?_, ?_, by omega⟩
          · rw [List.getD_cons_zero]; exact hv'
          · rw [← hv']; exact h
        · rintro ⟨k, hk, hval, hne, hmin⟩
          cases k with
          | zero =>
              rw [List.getD_cons_zero] at hval
              rw [hval]
          | succ k' =>
              have h0 := hmin 0 (by omega)
              rw [List.getD_cons_zero] at h0
              exact absurd h0 h
      · rw [if_neg h]
        rw [ih]
        rw [not_not] at h
        constructor
        · rintro ⟨k, hk, hval, hne, hmin⟩
          refine ⟨k + 1, by simp only [List.length_cons]; omega, ?_, hne, ?_⟩
          · rw [List.getD_cons_succ]; exact hval
          · intro j hj
            cases j with
            | zero => rw [List.getD_cons_zero]; exact h
            | succ j' =>
                rw [List.getD_cons_succ]
                exact hmin j' (by omega)
        · rintro ⟨k, hk, hval, hne, hmin⟩
          cases k with
          | zero =>
              exfalso
              rw [List.getD_cons_zero] at hval
              rw [← hval] at hne
              exact hne h
          | succ k' =>
              rw [List.getD_cons_succ] at hval
              refine ⟨k', ?_, hval, hne, ?_⟩
              · simp only [List.length_cons] at hk; omega
              · intro j hj
                have := hmin (j + 1) (by omega)
                rw [List.getD_cons_succ] at this
                exact this

theorem findNearestAux_none_iff (id : Nat) (L : List Scope) :
    findNearestAux id L = none ↔ ∀ sc ∈ L, sc.getD id .undefined = .undefined := by
  induction L with
  | nil => simp [findNearestAux]
  | cons sc t ih =>
      simp only [findNearestAux]
      by_cases h : sc.getD id .undefined ≠ .undefined
      · rw [if_pos h]
        simp only [List.mem_cons]
        constructor
        · intro hv; cases hv
        · intro hall
          exact absurd (hall sc (Or.inl rfl)) h
      · rw [if_neg h]
        rw [ih]
        simp only [not_not] at h
        constructor
        · intro hall sc2 hmem
          rcases List.mem_cons.mp hmem with rfl | hmem2
          · exact h
          · exact hall sc2 hmem2
        · intro hall sc2 hmem
          exact hall sc2 (List.mem_cons_of_mem sc hmem)

/-- C9: `findNearestVariable` walks the scope chain from innermost
(index 0 of the reversed chain) to outermost and returns the slot of
the nearest scope whose entry at the symbol id is not the `Undefined`
sentinel; when every scope's slot for the id is `Undefined` it returns
no result, and `LOAD_SYMBOL` then raises a runtime error (otherwise it
pushes the found value). -/
theorem findNearestVariable_spec (id : Nat) (locals : List Scope) :
    (∀ v, findNearestVariable id locals = some v ↔
      ∃ k, k < locals.length ∧ (locals.reverse.getD k []).getD id .undefined = v ∧
        v ≠ .undefined ∧
        ∀ j < k, (locals.reverse.getD j []).getD id .undefined = .undefined) ∧
    (findNearestVariable id locals = none ↔
      ∀ sc ∈ locals, sc.getD id .undefined = .undefined) ∧
    (∀ st : VMState, st.locals = locals → findNearestVariable id locals = none →
      (loadSymbol id st).isOk = false) ∧
    (∀ (st : VMState) (v : Value), st.locals = locals →
      findNearestVariable id locals = some v →
      loadSymbol id st = .ok { st with stack := v :: st.stack, lastSymLoaded := id }) := by
  refine ⟨?_, ?_, ?_, ?_⟩
  · intro v
    rw [show findNearestVariable id locals = findNearestAux id locals.reverse from rfl]
    rw [findNearestAux_some_iff]
    simp only [List.length_reverse]
  · rw [show findNearestVariable id locals = findNearestAux id locals.reverse from rfl]
    rw [findNearestAux_none_iff]
    constructor
    · intro hall sc hmem
      exact hall sc (List.mem_reverse.mpr hmem)
    · intro hall sc hmem
      exact hall sc (List.mem_reverse.mp hmem)
  · intro st hst hnone
    unfold loadSymbol
    rw [hst, hnone]
    rfl
  · intro st v hst hsome
    unfold loadSymbol
    rw [hst, hsome]

/-- Witness for C9: with an innermost scope whose slot 0 is
`Undefined` and an outer scope holding `5`, `LOAD_SYMBOL 0` finds `5`
in the outer scope and pushes it. -/
theorem findNearestVariable_spec_witness :
    loadSymbol 0 ⟨0, 0, [], [], [[Value.number 5], [Value.undefined]], none, 3⟩ =
      .ok ⟨0, 0, [Value.number 5], [], [[Value.number 5], [Value.undefined]], none, 0⟩ :=
  (findNearestVariable_spec 0 [[Value.number 5], [Value.undefined]]).2.2.2
    ⟨0, 0, [], [], [[Value.number 5], [Value.undefined]], none, 3⟩ (Value.number 5) rfl (by decide)

/-! ## C8 — call / return scope discipline -/

theorem modifyLastFrame_ne_nil (f : Frame → Frame) (a : Frame) (l : List Frame) :
    modifyLastFrame f (a :: l) ≠ [] := by
  cases l <;> simp [modifyLastFrame]

theorem modifyLastFrame_getLast (f : Frame → Frame) (l : List Frame) :
    (modifyLastFrame f l).getLast? = l.getLast?.map f := by
  induction l with
  | nil => rfl
  | cons fr rest ih =>
      cases rest with
      | nil => rfl
      | cons fr2 rest2 =>
          have hstep : modifyLastFrame f (fr :: fr2 :: rest2) =
              fr :: modifyLastFrame f (fr2 :: rest2) := rfl
          obtain ⟨y, ys, hy⟩ := List.exists_cons_of_ne_nil (modifyLastFrame_ne_nil f fr2 rest2)
          rw [hstep, hy, List.getLast?_cons_cons, ← hy, ih, List.getLast?_cons_cons]

theorem modifyLastFrame_reset_id (l : List Frame)
    (h : (l.getLast?.map Frame.scopeCountToDelete).getD 0 = 0) :
    modifyLastFrame (fun fr => { fr with scopeCountToDelete := 0 }) l = l := by
  induction l with
  | nil => rfl
  | cons fr rest ih =>
      cases rest with
      | nil =>
          simp only [List.getLast?_singleton, Option.map_some, Option.getD_some] at h
          show [{ fr with scopeCountToDelete := 0 }] = [fr]
          cases fr
          simp at h ⊢
          exact h.symm
      | cons fr2 rest2 =>
          have hh : ((fr2 :: rest2).getLast?.map Frame.scopeCountToDelete).getD 0 = 0 := by
            rw [List.getLast?_cons_cons] at h; exact h
          show fr :: modifyLastFrame (fun fr => { fr with scopeCountToDelete := 0 })
              (fr2 :: rest2) = fr :: fr2 :: rest2
          rw [ih hh]

theorem modifyLastFrame_reset_inc (l : List Frame)
    (h : (l.getLast?.map Frame.scopeCountToDelete).getD 0 = 0) :
    modifyLastFrame (fun fr => { fr with scopeCountToDelete := 0 })
      (modifyLastFrame
        (fun fr => { fr with scopeCountToDelete := fr.scopeCountToDelete + 1 }) l) = l := by
  induction l with
  | nil => rfl
  | cons fr rest ih =>
      cases rest with
      | nil =>
          simp only [List.getLast?_singleton, Option.map_some, Option.getD_some] at h
          show [{ fr with scopeCountToDelete := 0 }] = [fr]
          cases fr
          simp at h ⊢
          exact h.symm
      | cons fr2 rest2 =>
          have hh : ((fr2 :: rest2).getLast?.map Frame.scopeCountToDelete).getD 0 = 0 := by
            rw [List.getLast?_cons_cons] at h; exact h
          have hstep : modifyLastFrame
              (fun fr => { fr with scopeCountToDelete := fr.scopeCountToDelete + 1 })
              (fr :: fr2 :: rest2) =
              fr :: modifyLastFrame
                (fun fr => { fr with scopeCountToDelete := fr.scopeCountToDelete + 1 })
                (fr2 :: rest2) := rfl
          rw [hstep]
          obtain ⟨y, ys, hy⟩ := List.exists_cons_of_ne_nil
            (modifyLastFrame_ne_nil
              (fun fr => { fr with scopeCountToDelete := fr.scopeCountToDelete + 1 }) fr2 rest2)
          rw [hy]
          have hstep2 : modifyLastFrame (fun fr => { fr with scopeCountToDelete := 0 })
              (fr :: y :: ys) =
              fr :: modifyLastFrame (fun fr => { fr with scopeCountToDelete := 0 }) (y :: ys) := rfl
          rw [hstep2, ← hy, ih hh]

/-- Unfolding of `ret` when the frame stack is nonempty. -/
theorem ret_eq_of_getLast (st : VMState) (fr : Frame) (h : st.frames.getLast? = some fr) :
    ret st =
      { returnFromFuncCall
          { st with stack := if fr.stackBase < st.stack.length then st.stack.tail else st.stack } with
        ip := fr.callerAddr, pp := fr.callerPageAddr,
        stack := (if fr.stackBase < st.stack.length then st.stack.headD .nil else .nil) ::
          (returnFromFuncCall
            { st with stack := if fr.stackBase < st.stack.length then st.stack.tail else st.stack }).stack } := by
  unfold ret
  rw [h]

/-- C8: returning from a function call pops the active frame and then
exactly the scopes pushed since that frame began (as tracked through
the `scope_count_to_delete` counter), restoring the return page id and
instruction offset, so after `RET` the scope chain, the frame stack
and `pp`/`ip` are exactly what they were at the matching `CALL`. -/
theorem ret_callClosure (st : VMState) (argc pageId scopeSize : Nat) (cap : Option Scope)
    (hne : st.frames ≠ [])
    (hcnt : (st.frames.getLast?.map Frame.scopeCountToDelete).getD 0 = 0) :
    (ret (callClosure st argc pageId cap scopeSize)).locals = st.locals ∧
    (ret (callClosure st argc pageId cap scopeSize)).frames = st.frames ∧
    (ret (callClosure st argc pageId cap scopeSize)).pp = st.pp ∧
    (ret (callClosure st argc pageId cap scopeSize)).ip = st.ip := by
  obtain ⟨lastFr, hlast⟩ : ∃ lastFr, st.frames.getLast? = some lastFr := by
    cases hc : st.frames.getLast? with
    | none => exact absurd (List.getLast?_eq_none_iff.mp hc) hne
    | some x => exact ⟨x, rfl⟩
  have hcnt' : lastFr.scopeCountToDelete = 0 := by
    rw [hlast] at hcnt
    simpa using hcnt
  rcases cap with _ | c
  · -- no captured scope
    have hcc : callClosure st argc pageId none scopeSize =
        { st with
          stack := ((st.stack.drop 1).take argc).reverse ++ st.stack.drop (1 + argc),
          frames := st.frames ++ [⟨st.ip, st.pp, (st.stack.drop (1 + argc)).length, 0⟩],
          locals := st.locals ++ [] ++ [List.replicate scopeSize Value.undefined],
          pp := pageId, ip := 0 } := rfl
    rw [hcc, ret_eq_of_getLast _ ⟨st.ip, st.pp, (st.stack.drop (1 + argc)).length, 0⟩ (by simp)]
    refine ⟨?_, ?_, ?_, ?_⟩ <;>
      simp [returnFromFuncCall, List.dropLast_concat, List.append_nil, hlast, hcnt',
        modifyLastFrame_reset_id st.frames hcnt, List.take_length]
  · -- one captured scope
    have hcc : callClosure st argc pageId (some c) scopeSize =
        { st with
          stack := ((st.stack.drop 1).take argc).reverse ++ st.stack.drop (1 + argc),
          frames := modifyLastFrame
              (fun fr => { fr with scopeCountToDelete := fr.scopeCountToDelete + 1 }) st.frames ++
            [⟨st.ip, st.pp, (st.stack.drop (1 + argc)).length, 0⟩],
          locals := st.locals ++ [c] ++ [List.replicate scopeSize Value.undefined],
          pp := pageId, ip := 0 } := rfl
    rw [hcc, ret_eq_of_getLast _ ⟨st.ip, st.pp, (st.stack.drop (1 + argc)).length, 0⟩ (by simp)]
    have htake : (st.locals ++ [c]).take ((st.locals ++ [c]).length - 1) = st.locals := by
      simp [List.take_left]
    refine ⟨?_, ?_, ?_, ?_⟩ <;>
      simp [returnFromFuncCall, List.dropLast_concat, modifyLastFrame_getLast, hlast, hcnt',
        modifyLastFrame_reset_inc st.frames hcnt, htake]

/-- Witness for C8 at a concrete state: calling a closure with one
captured scope and returning restores the scope chain, the frame
stack and `pp`/`ip`. -/
theorem ret_callClosure_witness :
    (ret (callClosure ⟨5, 2, [Value.closure 3, Value.number 7], [⟨0, 0, 0, 0⟩],
        [[Value.number 1]], none, 0⟩ 1 3 (some [Value.number 9]) 1)).locals = [[Value.number 1]] ∧
    (ret (callClosure ⟨5, 2, [Value.closure 3, Value.number 7], [⟨0, 0, 0, 0⟩],
        [[Value.number 1]], none, 0⟩ 1 3 (some [Value.number 9]) 1)).frames = [⟨0, 0, 0, 0⟩] ∧
    (ret (callClosure ⟨5, 2, [Value.closure 3, Value.number 7], [⟨0, 0, 0, 0⟩],
        [[Value.number 1]], none, 0⟩ 1 3 (some [Value.number 9]) 1)).pp = 2 ∧
    (ret (callClosure ⟨5, 2, [Value.closure 3, Value.number 7], [⟨0, 0, 0, 0⟩],
        [[Value.number 1]], none, 0⟩ 1 3 (some [Value.number 9]) 1)).ip = 5 :=
  ret_callClosure ⟨5, 2, [Value.closure 3, Value.number 7], [⟨0, 0, 0, 0⟩],
    [[Value.number 1]], none, 0⟩ 1 3 1 (some [Value.number 9]) (by decide) rfl

/-! ## C1 — the content hash in the container header -/

theorem headerBytes_length (maj minor patch ts : Nat) :
    (headerBytes maj minor patch ts).length = 18 := by
  simp [headerBytes, u16be, tsBytes]

/-- C1: in the bytecode produced by `compile()`, the 32 bytes at
offsets 18..49 (immediately after the fixed 18-byte header) equal the
hash of every byte from offset 50 to the end — the digest is computed
over the post-header region (tables plus code segments) and inserted
after the header; stated for any digest function producing 32 bytes,
as `picosha2::hash256` does. -/
theorem compile_hash_spec (hash : List Nat → List Nat)
    (hlen : ∀ bs, (hash bs).length = 32) (maj minor patch ts : Nat) (ast : Node)
    (bc : List Nat) (hc : compile hash maj minor patch ts ast = .ok bc) :
    (bc.drop 18).take 32 = hash (bc.drop 50) := by
  unfold compile at hc
  cases hcs : compileToState ast with
  | error e => rw [hcs] at hc; cases hc
  | ok st =>
      rw [hcs] at hc
      simp only [Except.map] at hc
      have hbc : bc = headerBytes maj minor patch ts ++
          hash (tableBytes st ++ codeSegments st.codePages) ++
          (tableBytes st ++ codeSegments st.codePages) := by
        have := hc
        simp only [Except.ok.injEq] at this
        exact this.symm
      have h18 := headerBytes_length maj minor patch ts
      have h50 : (headerBytes maj minor patch ts ++
          hash (tableBytes st ++ codeSegments st.codePages)).length = 50 := by
        rw [List.length_append, h18, hlen]
      calc (bc.drop 18).take 32
            = ((headerBytes maj minor patch ts ++
                (hash (tableBytes st ++ codeSegments st.codePages) ++
                  (tableBytes st ++ codeSegments st.codePages))).drop
                (headerBytes maj minor patch ts).length).take 32 := by
              rw [hbc, List.append_assoc, h18]
          _ = (hash (tableBytes st ++ codeSegments st.codePages) ++
                (tableBytes st ++ codeSegments st.codePages)).take
                (hash (tableBytes st ++ codeSegments st.codePages)).length := by
              rw [List.drop_left, hlen]
          _ = hash (tableBytes st ++ codeSegments st.codePages) := List.take_left _ _
          _ = hash (bc.drop 50) := by
              rw [hbc, ← h50, List.drop_left]

/-- Witness for C1: a concrete compilation (of the empty block) with a
constant 32-byte digest function. -/
theorem compile_hash_spec_witness :
    (([97, 114, 107, 0, 0, 3, 0, 0, 0, 15, 0, 0, 0, 0, 0, 0, 0, 0] ++ List.replicate 32 0 ++
        [1, 0, 0, 2, 0, 0, 3, 0, 4, 21, 0, 2, 18] : List Nat).drop 18).take 32 =
      (fun _ => List.replicate 32 0)
        (([97, 114, 107, 0, 0, 3, 0, 0, 0, 15, 0, 0, 0, 0, 0, 0, 0, 0] ++ List.replicate 32 0 ++
          [1, 0, 0, 2, 0, 0, 3, 0, 4, 21, 0, 2, 18] : List Nat).drop 50) :=
  compile_hash_spec (fun _ => List.replicate 32 0) (fun _ => by simp) 3 0 15 0 (Node.list [])
    ([97, 114, 107, 0, 0, 3, 0, 0, 0, 15, 0, 0, 0, 0, 0, 0, 0, 0] ++ List.replicate 32 0 ++
      [1, 0, 0, 2, 0, 0, 3, 0, 4, 21, 0, 2, 18])
    (by
      simp only [compile, compileToState, _compile, emitNil, appendPage, setPage, getPage,
        initialState, nilBuiltinIdx, isBuiltin, indexOfString, builtins, u16be, BUILTIN]
      rfl)

/-! ## C7 — code-segment framing -/

/-- C7: the container produced by `compile()` ends with the code
segments: each page is serialised as `CODE_SEGMENT_START`, the
big-endian u16 of the page's byte count plus one, the page bytes and a
trailing `HALT`; when no pages exist a single segment of length 1
holding just `HALT` is emitted; hence every container contains at
least one code segment and every segment ends with `HALT` (and for
pages shorter than 65,535 bytes the u16 length decodes to exactly the
byte count plus one). -/
theorem compile_codeSegments_spec (hash : List Nat → List Nat) (maj minor patch ts : Nat)
    (ast : Node) (st : CompState) (hcs : compileToState ast = .ok st) :
    (compile hash maj minor patch ts ast =
      .ok (headerBytes maj minor patch ts ++ hash (tableBytes st ++ codeSegments st.codePages) ++
        (tableBytes st ++ codeSegments st.codePages))) ∧
    (∀ pages : List (List Nat), pages ≠ [] →
      codeSegments pages =
        (pages.map (fun pg => [CODE_SEGMENT_START] ++ u16be (pg.length + 1) ++ pg ++ [HALT])).flatten) ∧
    (codeSegments [] = [CODE_SEGMENT_START] ++ u16be 1 ++ [HALT]) ∧
    (∀ pages : List (List Nat), codeSegments pages ≠ []) ∧
    (∀ pg : List Nat,
      ([CODE_SEGMENT_START] ++ u16be (pg.length + 1) ++ pg ++ [HALT]).getLast? = some HALT) ∧
    (∀ n : Nat, n < 65536 → 256 * (u16be n).getD 0 0 + (u16be n).getD 1 0 = n) := by
  refine ⟨?_, ?_, ?_, ?_, ?_, ?_⟩
  · unfold compile
    rw [hcs]
    rfl
  · intro pages hne
    unfold codeSegments
    rw [if_neg (by simpa using hne)]
    simp
  · rfl
  · intro pages
    cases pages with
    | nil => simp [codeSegments]
    | cons pg rest => simp [codeSegments]
  · intro pg
    exact List.getLast?_concat _
  · intro n hn
    simp only [u16be, List.getD]
    simp
    omega

/-- Witness for C7: compiling the empty block produces the container
whose tail is the code segments of the single page `[BUILTIN, 0, 2]`. -/
theorem compile_codeSegments_spec_witness :
    compile (fun _ => List.replicate 32 0) 3 0 15 0 (Node.list []) =
      .ok (headerBytes 3 0 15 0 ++
        (fun _ => List.replicate 32 0)
          (tableBytes ⟨[], [], [], [], [[21, 0, 2]], []⟩ ++ codeSegments [[21, 0, 2]]) ++
        (tableBytes ⟨[], [], [], [], [[21, 0, 2]], []⟩ ++ codeSegments [[21, 0, 2]])) :=
  (compile_codeSegments_spec (fun _ => List.replicate 32 0) 3 0 15 0 (Node.list [])
    ⟨[], [], [], [], [[21, 0, 2]], []⟩
    (by
      simp only [compileToState, _compile, emitNil, appendPage, setPage, getPage, initialState,
        nilBuiltinIdx, isBuiltin, indexOfString, builtins, u16be, BUILTIN]
      rfl)).1

/-! ## C3 / C10 — operator calls through `handleCalls` -/

theorem except_bind_ok {ε α β : Type} (a : α) (f : α → Except ε β) :
    (Except.ok a >>= f) = f a := rfl

theorem except_bind_error {ε α β : Type} (e : ε) (f : α → Except ε β) :
    ((Except.error e : Except ε α) >>= f) = .error e := rfl

theorem getD_append_length {α} (A : List α) (b : α) (B : List α) (d : α) :
    (A ++ b :: B).getD A.length d = b := by
  induction A with
  | nil => simp
  | cons a t ih => simpa [List.getD_cons_succ] using ih

/-- Appending bytes to the topmost temp page (the page `handleCalls`
addresses as `-m_temp_pages.size()`). -/
theorem appendPage_tempTop (st : CompState) (pg bs : List Nat) :
    appendPage { st with tempPages := st.tempPages ++ [pg] }
      (-(((st.tempPages ++ [pg]).length : Nat) : Int)) bs =
    { st with tempPages := st.tempPages ++ [pg ++ bs] } := by
  unfold appendPage setPage getPage
  have h0 : ¬(0 ≤ (-(((st.tempPages ++ [pg]).length : Nat) : Int))) := by
    simp only [List.length_append, List.length_cons, List.length_nil]
    omega
  rw [if_neg h0, if_neg h0]
  have hidx : (-(-(((st.tempPages ++ [pg]).length : Nat) : Int)) - 1).toNat =
      st.tempPages.length := by
    simp only [List.length_append, List.length_cons, List.length_nil, neg_neg]
    omega
  simp only [hidx]
  congr 1
  rw [show st.tempPages ++ [pg] = st.tempPages ++ pg :: [] from rfl]
  rw [getD_append_length, list_set_concat]

theorem takeWhile_nonGetField (args : List Node)
    (hargs : ∀ a ∈ args, a.isGetField = false ∧ a.isCapture = false) :
    args.takeWhile Node.isGetField = [] := by
  cases args with
  | nil => rfl
  | cons a r => simp [List.takeWhile_cons, (hargs a (by simp)).1]

theorem dropWhile_nonGetField (args : List Node)
    (hargs : ∀ a ∈ args, a.isGetField = false ∧ a.isCapture = false) :
    args.dropWhile Node.isGetField = args := by
  cases args with
  | nil => rfl
  | cons a r => simp [List.dropWhile_cons, (hargs a (by simp)).1]

/-- Reduction of `handleCalls` for an operator callee (its temp page is
the single operator byte) and arguments with no leading `GetField`
chain: pop the temp page and run the operator-argument loop, then the
unary fix-up and the chained-arity check. -/
theorem handleCalls_operator (c0loc : Nat) (name : String) (k : Nat) (args : List Node)
    (p : Int) (st : CompState)
    (hb : isBuiltin name = none) (hop : isOperator name = some k)
    (hargs : ∀ a ∈ args, a.isGetField = false ∧ a.isCapture = false) :
    handleCalls (.sym c0loc name) args p st =
      ((compileChain (FIRST_OPERATOR + k) p 0 args st) >>= (fun st₅ =>
        if 2 < chainCount 0 args ∧ chainAllowed (FIRST_OPERATOR + k) = false then
          .error (.atNode (chainErrMsg (chainCount 0 args) (FIRST_OPERATOR + k))
            (.list (.sym c0loc name :: args)))
        else
          .ok (if chainCount 0 args = 1 then appendPage st₅ p [FIRST_OPERATOR + k] else st₅))) := by
  have hc0 : _compile (.sym c0loc name)
      (-(((st.tempPages ++ [[]]).length : Nat) : Int))
      { st with tempPages := st.tempPages ++ [[]] } =
      .ok { st with tempPages := st.tempPages ++ [[FIRST_OPERATOR + k]] } := by
    simp only [_compile, hb, hop]
    rw [appendPage_tempTop st [] [FIRST_OPERATOR + k]]
    rfl
  have htail : (st.tempPages ++ [[FIRST_OPERATOR + k]]).getLastD [] = [FIRST_OPERATOR + k] := by
    rw [List.getLastD_eq_getLast?]
    simp
  have hpop : (st.tempPages ++ [[FIRST_OPERATOR + k]]).dropLast = st.tempPages := by simp
  simp only [handleCalls, takeWhile_nonGetField args hargs, dropWhile_nonGetField args hargs,
    hc0, except_bind_ok, compileSeq, htail, hpop, List.length_cons, List.length_nil]
  rfl

/-- Dispatch of `_compile` on a non-specific symbol-headed list: a
general call. -/
theorem compile_call_dispatch (loc : Nat) (name : String) (args : List Node) (p : Int)
    (st : CompState) (hspec : isSpecific name = none) :
    _compile (.list (.sym loc name :: args)) p st = handleCalls (.sym loc name) args p st := by
  simp only [_compile, hspec]

theorem chainCount_nonGetField (args : List Node)
    (hargs : ∀ a ∈ args, a.isGetField = false ∧ a.isCapture = false) :
    ∀ cnt, chainCount cnt args = cnt + args.length := by
  induction args with
  | nil => intro cnt; simp [chainCount]
  | cons a rest ih =>
      intro cnt
      have hinc : chainInc rest = true := by
        cases rest with
        | nil => rfl
        | cons b r =>
            simp [chainInc, (hargs b (by simp)).1, (hargs b (by simp)).2]
      simp only [chainCount, hinc, if_true]
      rw [ih (fun x hx => hargs x (by simp [hx])) (cnt + 1)]
      simp only [List.length_cons]
      omega

theorem compileChain_eq_chainSpec (op : Nat) (p : Int) (args : List Node)
    (hargs : ∀ a ∈ args, a.isGetField = false ∧ a.isCapture = false) :
    ∀ cnt st, compileChain op p cnt args st = chainSpecCompile op p cnt args st := by
  induction args with
  | nil => intro cnt st; simp [compileChain, chainSpecCompile]
  | cons a rest ih =>
      intro cnt st
      have hinc : chainInc rest = true := by
        cases rest with
        | nil => rfl
        | cons b r =>
            simp [chainInc, (hargs b (by simp)).1, (hargs b (by simp)).2]
      simp only [compileChain, chainSpecCompile, hinc, if_true]
      cases hcc : _compile a p st with
      | error e => rw [except_bind_error, except_bind_error]
      | ok st₁ =>
          rw [except_bind_ok, except_bind_ok]
          exact ih (fun x hx => hargs x (by simp [hx])) (cnt + 1) _

theorem indexOfString_getD (name : String) (L : List String) :
    ∀ k, indexOfString name L = some k → L.getD k "" = name := by
  induction L with
  | nil => intro k h; cases h
  | cons s rest ih =>
      intro k h
      simp only [indexOfString] at h
      by_cases hs : s = name
      · rw [if_pos hs] at h
        simp only [Option.some.injEq] at h
        subst h
        simpa using hs
      · rw [if_neg hs] at h
        cases hr : indexOfString name rest with
        | none => rw [hr] at h; cases h
        | some j =>
            rw [hr] at h
            simp at h
            subst h
            simpa [List.getD_cons_succ] using ih j hr

/-- C3: a general call whose callee compiles to a single operator byte
`op` and whose plain arguments number more than two emits
`A B op C op D op …` (the operator after the second and each
subsequent argument, as described by `chainSpecCompile`), and such a
chained call compiles without error exactly when `op` is one of
`ADD, SUB, MUL, DIV, MOD, AND_, OR_`; for any other operator the
compiler raises an error quoting the operator name. -/
theorem handleCalls_chained_operator (loc : Nat) (name : String) (k : Nat) (args : List Node)
    (p : Int) (st : CompState)
    (hspec : isSpecific name = none) (hb : isBuiltin name = none)
    (hop : isOperator name = some k)
    (hargs : ∀ a ∈ args, a.isGetField = false ∧ a.isCapture = false)
    (hlen : 2 < args.length) :
    (chainAllowed (FIRST_OPERATOR + k) = true →
      _compile (.list (.sym loc name :: args)) p st =
        chainSpecCompile (FIRST_OPERATOR + k) p 0 args st) ∧
    (chainAllowed (FIRST_OPERATOR + k) = false →
      ∀ st', chainSpecCompile (FIRST_OPERATOR + k) p 0 args st = .ok st' →
        _compile (.list (.sym loc name :: args)) p st =
          .error (.atNode
            ("can not create a chained expression (of length " ++ toString args.length ++
              ") for operator `" ++ name ++ "\x27. You most likely forgot a `)\x27.")
            (.list (.sym loc name :: args)))) := by
  have hdisp := compile_call_dispatch loc name args p st hspec
  have hred := handleCalls_operator loc name k args p st hb hop hargs
  have hec : chainCount 0 args = args.length := by
    simpa using chainCount_nonGetField args hargs 0
  have hchain := compileChain_eq_chainSpec (FIRST_OPERATOR + k) p args hargs 0 st
  have hmsg : chainErrMsg (chainCount 0 args) (FIRST_OPERATOR + k) =
      "can not create a chained expression (of length " ++ toString args.length ++
        ") for operator `" ++ name ++ "\x27. You most likely forgot a `)\x27." := by
    rw [hec]
    unfold chainErrMsg opName
    rw [Nat.add_sub_cancel_left]
    rw [indexOfString_getD name operators k hop]
  constructor
  · intro hallow
    rw [hdisp, hred]
    cases hcs : compileChain (FIRST_OPERATOR + k) p 0 args st with
    | error e =>
        rw [except_bind_error]
        rw [hcs] at hchain
        exact hchain
    | ok st₅ =>
        rw [except_bind_ok, if_neg (by simp [hallow]), if_neg (by omega)]
        rw [hcs] at hchain
        exact hchain
  · intro hallow st' hok
    rw [hdisp, hred, hchain, hok, except_bind_ok, if_pos ⟨by omega, hallow⟩, hmsg]

/-- Witness for C3: `(+ 1 2 3)` lowers to the chained emission, and
`(< 1 2 3)` (whose arguments compile fine) is rejected with an error
quoting `<`. -/
theorem handleCalls_chained_operator_witness :
    (_compile (.list [.sym 0 "+", .num 1, .num 2, .num 3]) 0 initialState =
      chainSpecCompile (FIRST_OPERATOR + 0) 0 0 [.num 1, .num 2, .num 3] initialState) ∧
    (_compile (.list [.sym 0 "<", .num 1, .num 2, .num 3]) 0 initialState =
      .error (.atNode
        ("can not create a chained expression (of length " ++ toString (3 : Nat) ++
          ") for operator `" ++ "<" ++ "\x27. You most likely forgot a `)\x27.")
        (.list [.sym 0 "<", .num 1, .num 2, .num 3]))) := by
  have hargs : ∀ a ∈ [Node.num 1, Node.num 2, Node.num 3],
      a.isGetField = false ∧ a.isCapture = false := by
    intro a ha
    simp only [List.mem_cons, List.not_mem_nil, or_false] at ha
    rcases ha with rfl | rfl | rfl <;> exact ⟨rfl, rfl⟩
  constructor
  · exact (handleCalls_chained_operator 0 "+" 0 [.num 1, .num 2, .num 3] 0 initialState
      (by decide) (by decide) (by decide) hargs (by norm_num)).1 (by decide)
  · refine (handleCalls_chained_operator 0 "<" 5 [.num 1, .num 2, .num 3] 0 initialState
      (by decide) (by decide) (by decide) hargs (by norm_num)).2 (by decide)
      ⟨[], [], [], [.number 1, .number 2, .number 3],
        [[LOAD_CONST, 0, 0, LOAD_CONST, 0, 1, FIRST_OPERATOR + 5, LOAD_CONST, 0, 2,
          FIRST_OPERATOR + 5]], []⟩ ?_
    simp only [chainSpecCompile, _compile, addValueNode, valOfNode, lookupValIdx,
      initialState, appendPage, setPage, getPage, u16be, LOAD_CONST, chainInc]
    rfl

/-- C10: a general call of an operator with exactly one plain argument
compiles to the argument's code followed by exactly one operator byte. -/
theorem handleCalls_unary_operator (loc : Nat) (name : String) (k : Nat) (a : Node)
    (p : Int) (st : CompState)
    (hspec : isSpecific name = none) (hb : isBuiltin name = none)
    (hop : isOperator name = some k)
    (hgf : a.isGetField = false) (hcap : a.isCapture = false) :
    _compile (.list [.sym loc name, a]) p st =
      (_compile a p st).map (fun st' => appendPage st' p [FIRST_OPERATOR + k]) := by
  have hargs : ∀ x ∈ [a], x.isGetField = false ∧ x.isCapture = false := by
    intro x hx
    simp only [List.mem_singleton] at hx
    subst hx
    exact ⟨hgf, hcap⟩
  have hdisp := compile_call_dispatch loc name [a] p st hspec
  have hred := handleCalls_operator loc name k [a] p st hb hop hargs
  have hec : chainCount 0 [a] = 1 := by simp [chainCount, chainInc]
  rw [hdisp, hred]
  cases hcc : _compile a p st with
  | error e =>
      simp only [compileChain, hcc, except_bind_error, Except.map]
  | ok st₁ =>
      simp only [compileChain, hcc, except_bind_ok, chainInc, if_true, compileSeq,
        Except.map, hec]
      rw [if_neg (by omega)]
      rw [if_neg (show ¬(2 ≤ 0 + 1) by omega)]

/-- Witness for C10: `(not 1)` compiles to the code of `1` followed by
the single `NOT` byte. -/
theorem handleCalls_unary_operator_witness :
    _compile (.list [.sym 0 "not", .num 1]) 0 initialState =
      (_compile (.num 1) 0 initialState).map
        (fun st' => appendPage st' 0 [FIRST_OPERATOR + 23]) :=
  handleCalls_unary_operator 0 "not" 23 (.num 1) 0 initialState
    (by decide) (by decide) (by decide) rfl rfl

/-! ## C4 — specific forms -/

/-- C4: for a specific form (`list`, `append`, `concat`, `pop` and the
in-place variants) with `argc` equal to the number of non-`GetField`
children excluding the head, compilation raises a compile error when
`argc < 2` and the opcode is not `LIST`; otherwise, after compiling
the children (the reverse-order loop), the opcode byte is emitted
followed by operand `argc` for `LIST`, operand `argc - 1` for
`APPEND`, `APPEND_IN_PLACE`, `CONCAT` and `CONCAT_IN_PLACE`, and no
operand for the `POP` variants. -/
theorem compileSpecific_spec (loc : Nat) (name : String) (inst argc : Nat) (args : List Node)
    (p : Int) (st : CompState)
    (hspec : isSpecific name = some inst)
    (hargc : argc = countArkObjects (.sym loc name :: args) - 1)
    (hsmall : argc < 65536) :
    (argc < 2 ∧ inst ≠ LIST →
      _compile (.list (.sym loc name :: args)) p st =
        .error (.plain ("can not use " ++ name ++ " with less than 2 arguments"))) ∧
    (¬(argc < 2 ∧ inst ≠ LIST) →
      ∀ st₁, compileSpecArgs args.reverse p st = .ok st₁ →
        _compile (.list (.sym loc name :: args)) p st =
          .ok (appendPage st₁ p ([inst] ++ pushSpecificInstArgc inst argc))) ∧
    (inst = LIST → pushSpecificInstArgc inst argc = u16be argc) ∧
    (inst = APPEND ∨ inst = APPEND_IN_PLACE ∨ inst = CONCAT ∨ inst = CONCAT_IN_PLACE →
      pushSpecificInstArgc inst argc = u16be (argc - 1)) ∧
    (inst = POP_LIST ∨ inst = POP_LIST_IN_PLACE →
      pushSpecificInstArgc inst argc = []) := by
  have hmod : (countArkObjects (.sym loc name :: args) - 1) % 65536 = argc := by
    rw [← hargc]
    exact Nat.mod_eq_of_lt hsmall
  refine ⟨?_, ?_, ?_, ?_, ?_⟩
  · intro hcond
    simp only [_compile, hspec, hmod]
    rw [if_pos hcond]
  · intro hcond st₁ hok
    simp only [_compile, hspec, hmod]
    rw [if_neg hcond, hok, except_bind_ok]
  · intro h
    subst h
    simp [pushSpecificInstArgc]
  · intro h
    unfold pushSpecificInstArgc
    rcases h with rfl | rfl | rfl | rfl <;>
      first
        | (rw [if_neg (by decide), if_pos (by decide)])
  · intro h
    unfold pushSpecificInstArgc
    rcases h with rfl | rfl <;> rw [if_neg (by decide), if_neg (by decide)]

/-- Witness for C4: `(append xs 4)` compiles its children in reverse
order and emits `APPEND` with operand `argc - 1 = 1`; `(pop xs)` is
rejected because `argc = 1 < 2`. -/
theorem compileSpecific_spec_witness :
    (_compile (.list [.sym 0 "append", .sym 1 "xs", .num 4]) 0 initialState =
      .ok (appendPage ⟨[.sym 1 "xs"], [], [], [.number 4],
        [[LOAD_CONST, 0, 0, LOAD_SYMBOL, 0, 0]], []⟩ 0
        ([APPEND] ++ pushSpecificInstArgc APPEND 2))) ∧
    (_compile (.list [.sym 0 "pop", .sym 1 "xs"]) 0 initialState =
      .error (.plain ("can not use " ++ "pop" ++ " with less than 2 arguments"))) := by
  constructor
  · refine (compileSpecific_spec 0 "append" APPEND 2 [.sym 1 "xs", .num 4] 0 initialState
      (by decide) (by decide) (by decide)).2.1 (by decide)
      ⟨[.sym 1 "xs"], [], [], [.number 4], [[LOAD_CONST, 0, 0, LOAD_SYMBOL, 0, 0]], []⟩ ?_
    show compileSpecArgs [Node.num 4, Node.sym 1 "xs"] 0 initialState = _
    simp [compileSpecArgs, compileSeq, _compile, addValueNode, valOfNode, lookupValIdx,
      addSymbol, lookupSymbolIdx, Node.string, initialState, appendPage, setPage, getPage,
      u16be, LOAD_CONST, LOAD_SYMBOL, List.dropWhile, List.takeWhile, Node.isGetField,
      isBuiltin, isOperator, indexOfString, builtins, operators, isSpecific,
      except_bind_ok, except_bind_error]
  · exact (compileSpecific_spec 0 "pop" POP_LIST 1 [.sym 1 "xs"] 0 initialState
      (by decide) (by decide) (by decide)).1 (by decide)

/-! ## C2 — `compileIf` emission order and back-patching -/

theorem set2_at (X : List Nat) (o b1 b2 : Nat) (Y : List Nat) (hi lo pos : Nat)
    (hpos : pos = X.length + 1) :
    ((X ++ o :: b1 :: b2 :: Y).set pos hi).set (pos + 1) lo = X ++ o :: hi :: lo :: Y := by
  subst hpos
  have h1 : X ++ o :: b1 :: b2 :: Y = (X ++ [o]) ++ b1 :: b2 :: Y := by simp
  have h2 : X.length + 1 = (X ++ [o]).length := by simp
  rw [h1, h2, list_set_concat]
  have h3 : (X ++ [o]) ++ hi :: b2 :: Y = ((X ++ [o]) ++ [hi]) ++ b2 :: Y := by simp
  have h4 : (X ++ [o]).length + 1 = ((X ++ [o]) ++ [hi]).length := by simp
  rw [h3, h4, list_set_concat]
  simp

/-- The else-present half of C2. -/
theorem compileIf_else_lemma (cond thenN els : Node) (p : Int) (st st₁ stE stT : CompState)
    (condCode elseCode thenCode : List Nat)
    (hv0 : pageValid st p)
    (h₁ : _compile cond p st = .ok st₁)
    (hv1 : pageValid st₁ p)
    (hpg1 : getPage st₁ p = getPage st p ++ condCode)
    (h₂ : _compile els p (appendPage st₁ p ([POP_JUMP_IF_TRUE] ++ u16be 0)) = .ok stE)
    (hv2 : pageValid stE p)
    (hpg2 : getPage stE p =
      getPage (appendPage st₁ p ([POP_JUMP_IF_TRUE] ++ u16be 0)) p ++ elseCode)
    (h₃ : _compile thenN p
        (patch2 (appendPage stE p ([JUMP] ++ u16be 0)) p ((getPage st₁ p).length + 1)
          (getPage (appendPage stE p ([JUMP] ++ u16be 0)) p).length) = .ok stT)
    (hv3 : pageValid stT p)
    (hpg3 : getPage stT p =
      getPage (patch2 (appendPage stE p ([JUMP] ++ u16be 0)) p ((getPage st₁ p).length + 1)
        (getPage (appendPage stE p ([JUMP] ++ u16be 0)) p).length) p ++ thenCode) :
    _compile (.list [.keyword .If, cond, thenN, els]) p st =
      .ok (patch2 stT p ((getPage stE p).length + 1) (getPage stT p).length) ∧
    getPage (patch2 stT p ((getPage stE p).length + 1) (getPage stT p).length) p =
      getPage st p ++ condCode ++ [POP_JUMP_IF_TRUE] ++
        u16be ((getPage st p).length + condCode.length + 3 + elseCode.length + 3) ++
        elseCode ++ [JUMP] ++
        u16be ((getPage st p).length + condCode.length + 3 + elseCode.length + 3 +
          thenCode.length) ++ thenCode ∧
    (getPage st p).length + condCode.length + 3 + elseCode.length + 3 ≤
      (getPage st p).length + condCode.length + 3 + elseCode.length + 3 + thenCode.length ∧
    (getPage st p).length + condCode.length + 3 + elseCode.length + 3 + thenCode.length =
      (getPage (patch2 stT p ((getPage stE p).length + 1) (getPage stT p).length) p).length := by
  -- page contents at each stage
  have hA2 : getPage (appendPage st₁ p ([POP_JUMP_IF_TRUE] ++ u16be 0)) p =
      (getPage st p ++ condCode) ++ POP_JUMP_IF_TRUE :: 0 :: 0 :: [] := by
    rw [getPage_appendPage st₁ p _ hv1, hpg1]
    simp [u16be]
  have hAE : getPage stE p =
      (getPage st p ++ condCode) ++ POP_JUMP_IF_TRUE :: 0 :: 0 :: elseCode := by
    rw [hpg2, hA2]
    simp
  have hv4 : pageValid (appendPage stE p ([JUMP] ++ u16be 0)) p :=
    (pageValid_appendPage stE p _ p).mpr hv2
  have hA4 : getPage (appendPage stE p ([JUMP] ++ u16be 0)) p =
      (getPage st p ++ condCode) ++ POP_JUMP_IF_TRUE :: 0 :: 0 ::
        (elseCode ++ JUMP :: 0 :: 0 :: []) := by
    rw [getPage_appendPage stE p _ hv2, hAE]
    simp [u16be]
  have hlen4 : (getPage (appendPage stE p ([JUMP] ++ u16be 0)) p).length =
      (getPage st p).length + condCode.length + 3 + elseCode.length + 3 := by
    rw [hA4]
    simp
    omega
  have hv5 : pageValid (patch2 (appendPage stE p ([JUMP] ++ u16be 0)) p
      ((getPage st₁ p).length + 1)
      (getPage (appendPage stE p ([JUMP] ++ u16be 0)) p).length) p :=
    (pageValid_patch2 _ p _ _ p).mpr hv4
  have hA5 : getPage (patch2 (appendPage stE p ([JUMP] ++ u16be 0)) p
      ((getPage st₁ p).length + 1)
      (getPage (appendPage stE p ([JUMP] ++ u16be 0)) p).length) p =
      (getPage st p ++ condCode) ++ POP_JUMP_IF_TRUE ::
        (((getPage st p).length + condCode.length + 3 + elseCode.length + 3) / 256 % 256) ::
        (((getPage st p).length + condCode.length + 3 + elseCode.length + 3) % 256) ::
        (elseCode ++ JUMP :: 0 :: 0 :: []) := by
    rw [getPage_patch2 _ p _ _ hv4, hlen4, hA4]
    exact set2_at _ _ _ _ _ _ _ _ (by rw [hpg1])
  have hAT : getPage stT p =
      ((getPage st p ++ condCode) ++ POP_JUMP_IF_TRUE ::
        (((getPage st p).length + condCode.length + 3 + elseCode.length + 3) / 256 % 256) ::
        (((getPage st p).length + condCode.length + 3 + elseCode.length + 3) % 256) ::
        (elseCode ++ JUMP :: 0 :: 0 :: [])) ++ thenCode := by
    rw [hpg3, hA5]
  have hlenT : (getPage stT p).length =
      (getPage st p).length + condCode.length + 3 + elseCode.length + 3 + thenCode.length := by
    rw [hAT]
    simp
    omega
  have hAfin : getPage (patch2 stT p ((getPage stE p).length + 1) (getPage stT p).length) p =
      getPage st p ++ condCode ++ [POP_JUMP_IF_TRUE] ++
        u16be ((getPage st p).length + condCode.length + 3 + elseCode.length + 3) ++
        elseCode ++ [JUMP] ++
        u16be ((getPage st p).length + condCode.length + 3 + elseCode.length + 3 +
          thenCode.length) ++ thenCode := by
    rw [getPage_patch2 stT p _ _ hv3, hlenT, hAT]
    have hre : ((getPage st p ++ condCode) ++ POP_JUMP_IF_TRUE ::
        (((getPage st p).length + condCode.length + 3 + elseCode.length + 3) / 256 % 256) ::
        (((getPage st p).length + condCode.length + 3 + elseCode.length + 3) % 256) ::
        (elseCode ++ JUMP :: 0 :: 0 :: [])) ++ thenCode =
        ((getPage st p ++ condCode) ++ POP_JUMP_IF_TRUE ::
          (((getPage st p).length + condCode.length + 3 + elseCode.length + 3) / 256 % 256) ::
          (((getPage st p).length + condCode.length + 3 + elseCode.length + 3) % 256) ::
          elseCode) ++ JUMP :: 0 :: 0 :: thenCode := by
      simp
    rw [hre]
    rw [set2_at _ _ _ _ _ _ _ ((getPage stE p).length + 1) (by rw [hAE]; simp; try omega)]
    simp [u16be]
  refine ⟨?_, hAfin, by omega, ?_⟩
  · simp only [_compile, h₁, except_bind_ok, h₂, h₃]
  · rw [hAfin]
    simp [u16be]
    omega

/-- The no-else half of C2. -/
theorem compileIf_noelse_lemma (cond thenN : Node) (p : Int) (st st₁ stT : CompState)
    (condCode thenCode : List Nat)
    (hv0 : pageValid st p)
    (h₁ : _compile cond p st = .ok st₁)
    (hv1 : pageValid st₁ p)
    (hpg1 : getPage st₁ p = getPage st p ++ condCode)
    (h₃ : _compile thenN p
        (patch2 (appendPage (appendPage st₁ p ([POP_JUMP_IF_TRUE] ++ u16be 0)) p
            ([JUMP] ++ u16be 0)) p ((getPage st₁ p).length + 1)
          (getPage (appendPage (appendPage st₁ p ([POP_JUMP_IF_TRUE] ++ u16be 0)) p
            ([JUMP] ++ u16be 0)) p).length) = .ok stT)
    (hv3 : pageValid stT p)
    (hpg3 : getPage stT p =
      getPage (patch2 (appendPage (appendPage st₁ p ([POP_JUMP_IF_TRUE] ++ u16be 0)) p
          ([JUMP] ++ u16be 0)) p ((getPage st₁ p).length + 1)
        (getPage (appendPage (appendPage st₁ p ([POP_JUMP_IF_TRUE] ++ u16be 0)) p
          ([JUMP] ++ u16be 0)) p).length) p ++ thenCode) :
    _compile (.list [.keyword .If, cond, thenN]) p st =
      .ok (patch2 stT p
        ((getPage (appendPage st₁ p ([POP_JUMP_IF_TRUE] ++ u16be 0)) p).length + 1)
        (getPage stT p).length) ∧
    getPage (patch2 stT p
        ((getPage (appendPage st₁ p ([POP_JUMP_IF_TRUE] ++ u16be 0)) p).length + 1)
        (getPage stT p).length) p =
      getPage st p ++ condCode ++ [POP_JUMP_IF_TRUE] ++
        u16be ((getPage st p).length + condCode.length + 3 + 3) ++ [JUMP] ++
        u16be ((getPage st p).length + condCode.length + 3 + 3 + thenCode.length) ++
        thenCode ∧
    (getPage st p).length + condCode.length + 3 + 3 ≤
      (getPage st p).length + condCode.length + 3 + 3 + thenCode.length ∧
    (getPage st p).length + condCode.length + 3 + 3 + thenCode.length =
      (getPage (patch2 stT p
        ((getPage (appendPage st₁ p ([POP_JUMP_IF_TRUE] ++ u16be 0)) p).length + 1)
        (getPage stT p).length) p).length := by
  have hv2 : pageValid (appendPage st₁ p ([POP_JUMP_IF_TRUE] ++ u16be 0)) p :=
    (pageValid_appendPage st₁ p _ p).mpr hv1
  have hA2 : getPage (appendPage st₁ p ([POP_JUMP_IF_TRUE] ++ u16be 0)) p =
      (getPage st p ++ condCode) ++ POP_JUMP_IF_TRUE :: 0 :: 0 :: [] := by
    rw [getPage_appendPage st₁ p _ hv1, hpg1]
    simp [u16be]
  have hv4 : pageValid (appendPage (appendPage st₁ p ([POP_JUMP_IF_TRUE] ++ u16be 0)) p
      ([JUMP] ++ u16be 0)) p :=
    (pageValid_appendPage _ p _ p).mpr hv2
  have hA4 : getPage (appendPage (appendPage st₁ p ([POP_JUMP_IF_TRUE] ++ u16be 0)) p
      ([JUMP] ++ u16be 0)) p =
      (getPage st p ++ condCode) ++ POP_JUMP_IF_TRUE :: 0 :: 0 :: (JUMP :: 0 :: 0 :: []) := by
    rw [getPage_appendPage _ p _ hv2, hA2]
    simp [u16be]
  have hlen4 : (getPage (appendPage (appendPage st₁ p ([POP_JUMP_IF_TRUE] ++ u16be 0)) p
      ([JUMP] ++ u16be 0)) p).length =
      (getPage st p).length + condCode.length + 3 + 3 := by
    rw [hA4]
    simp
    omega
  have hA5 : getPage (patch2 (appendPage (appendPage st₁ p ([POP_JUMP_IF_TRUE] ++ u16be 0)) p
      ([JUMP] ++ u16be 0)) p ((getPage st₁ p).length + 1)
      (getPage (appendPage (appendPage st₁ p ([POP_JUMP_IF_TRUE] ++ u16be 0)) p
        ([JUMP] ++ u16be 0)) p).length) p =
      (getPage st p ++ condCode) ++ POP_JUMP_IF_TRUE ::
        (((getPage st p).length + condCode.length + 3 + 3) / 256 % 256) ::
        (((getPage st p).length + condCode.length + 3 + 3) % 256) ::
        (JUMP :: 0 :: 0 :: []) := by
    rw [getPage_patch2 _ p _ _ hv4, hlen4, hA4]
    exact set2_at _ _ _ _ _ _ _ _ (by rw [hpg1])
  have hAT : getPage stT p =
      ((getPage st p ++ condCode) ++ POP_JUMP_IF_TRUE ::
        (((getPage st p).length + condCode.length + 3 + 3) / 256 % 256) ::
        (((getPage st p).length + condCode.length + 3 + 3) % 256) ::
        (JUMP :: 0 :: 0 :: [])) ++ thenCode := by
    rw [hpg3, hA5]
  have hlenT : (getPage stT p).length =
      (getPage st p).length + condCode.length + 3 + 3 + thenCode.length := by
    rw [hAT]
    simp
    omega
  have hAfin : getPage (patch2 stT p
      ((getPage (appendPage st₁ p ([POP_JUMP_IF_TRUE] ++ u16be 0)) p).length + 1)
      (getPage stT p).length) p =
      getPage st p ++ condCode ++ [POP_JUMP_IF_TRUE] ++
        u16be ((getPage st p).length + condCode.length + 3 + 3) ++ [JUMP] ++
        u16be ((getPage st p).length + condCode.length + 3 + 3 + thenCode.length) ++
        thenCode := by
    rw [getPage_patch2 stT p _ _ hv3, hlenT, hAT]
    have hre : ((getPage st p ++ condCode) ++ POP_JUMP_IF_TRUE ::
        (((getPage st p).length + condCode.length + 3 + 3) / 256 % 256) ::
        (((getPage st p).length + condCode.length + 3 + 3) % 256) ::
        (JUMP :: 0 :: 0 :: [])) ++ thenCode =
        ((getPage st p ++ condCode) ++ POP_JUMP_IF_TRUE ::
          (((getPage st p).length + condCode.length + 3 + 3) / 256 % 256) ::
          (((getPage st p).length + condCode.length + 3 + 3) % 256) :: []) ++
          JUMP :: 0 :: 0 :: thenCode := by
      simp
    rw [hre]
    rw [set2_at _ _ _ _ _ _ _
      ((getPage (appendPage st₁ p ([POP_JUMP_IF_TRUE] ++ u16be 0)) p).length + 1)
      (by rw [hA2]; simp; try omega)]
    simp [u16be]
  refine ⟨?_, hAfin, by omega, ?_⟩
  · simp only [_compile, h₁, except_bind_ok, h₃]
  · rw [hAfin]
    simp [u16be]
    omega

/-- C2: for every `(if cond then)` or `(if cond then else)` node,
`compileIf` emits onto the current page, in order: the condition code,
`POP_JUMP_IF_TRUE` with a placeholder operand, the else code (when
present), `JUMP` with a placeholder operand, then the then code; the
`POP_JUMP_IF_TRUE` operand is back-patched to the page offset at
which the then code begins, the `JUMP` operand to the offset just
after the then code, and both patched targets lie within the same
page. -/
theorem compileIf_spec :
    (∀ (cond thenN els : Node) (p : Int) (st st₁ stE stT : CompState)
      (condCode elseCode thenCode : List Nat),
      pageValid st p →
      _compile cond p st = .ok st₁ →
      pageValid st₁ p →
      getPage st₁ p = getPage st p ++ condCode →
      _compile els p (appendPage st₁ p ([POP_JUMP_IF_TRUE] ++ u16be 0)) = .ok stE →
      pageValid stE p →
      getPage stE p =
        getPage (appendPage st₁ p ([POP_JUMP_IF_TRUE] ++ u16be 0)) p ++ elseCode →
      _compile thenN p
          (patch2 (appendPage stE p ([JUMP] ++ u16be 0)) p ((getPage st₁ p).length + 1)
            (getPage (appendPage stE p ([JUMP] ++ u16be 0)) p).length) = .ok stT →
      pageValid stT p →
      getPage stT p =
        getPage (patch2 (appendPage stE p ([JUMP] ++ u16be 0)) p ((getPage st₁ p).length + 1)
          (getPage (appendPage stE p ([JUMP] ++ u16be 0)) p).length) p ++ thenCode →
      _compile (.list [.keyword .If, cond, thenN, els]) p st =
        .ok (patch2 stT p ((getPage stE p).length + 1) (getPage stT p).length) ∧
      getPage (patch2 stT p ((getPage stE p).length + 1) (getPage stT p).length) p =
        getPage st p ++ condCode ++ [POP_JUMP_IF_TRUE] ++
          u16be ((getPage st p).length + condCode.length + 3 + elseCode.length + 3) ++
          elseCode ++ [JUMP] ++
          u16be ((getPage st p).length + condCode.length + 3 + elseCode.length + 3 +
            thenCode.length) ++ thenCode ∧
      (getPage st p).length + condCode.length + 3 + elseCode.length + 3 ≤
        (getPage st p).length + condCode.length + 3 + elseCode.length + 3 + thenCode.length ∧
      (getPage st p).length + condCode.length + 3 + elseCode.length + 3 + thenCode.length =
        (getPage (patch2 stT p ((getPage stE p).length + 1) (getPage stT p).length) p).length) ∧
    (∀ (cond thenN : Node) (p : Int) (st st₁ stT : CompState)
      (condCode thenCode : List Nat),
      pageValid st p →
      _compile cond p st = .ok st₁ →
      pageValid st₁ p →
      getPage st₁ p = getPage st p ++ condCode →
      _compile thenN p
          (patch2 (appendPage (appendPage st₁ p ([POP_JUMP_IF_TRUE] ++ u16be 0)) p
              ([JUMP] ++ u16be 0)) p ((getPage st₁ p).length + 1)
            (getPage (appendPage (appendPage st₁ p ([POP_JUMP_IF_TRUE] ++ u16be 0)) p
              ([JUMP] ++ u16be 0)) p).length) = .ok stT →
      pageValid stT p →
      getPage stT p =
        getPage (patch2 (appendPage (appendPage st₁ p ([POP_JUMP_IF_TRUE] ++ u16be 0)) p
            ([JUMP] ++ u16be 0)) p ((getPage st₁ p).length + 1)
          (getPage (appendPage (appendPage st₁ p ([POP_JUMP_IF_TRUE] ++ u16be 0)) p
            ([JUMP] ++ u16be 0)) p).length) p ++ thenCode →
      _compile (.list [.keyword .If, cond, thenN]) p st =
        .ok (patch2 stT p
          ((getPage (appendPage st₁ p ([POP_JUMP_IF_TRUE] ++ u16be 0)) p).length + 1)
          (getPage stT p).length) ∧
      getPage (patch2 stT p
          ((getPage (appendPage st₁ p ([POP_JUMP_IF_TRUE] ++ u16be 0)) p).length + 1)
          (getPage stT p).length) p =
        getPage st p ++ condCode ++ [POP_JUMP_IF_TRUE] ++
          u16be ((getPage st p).length + condCode.length + 3 + 3) ++ [JUMP] ++
          u16be ((getPage st p).length + condCode.length + 3 + 3 + thenCode.length) ++
          thenCode ∧
      (getPage st p).length + condCode.length + 3 + 3 ≤
        (getPage st p).length + condCode.length + 3 + 3 + thenCode.length ∧
      (getPage st p).length + condCode.length + 3 + 3 + thenCode.length =
        (getPage (patch2 stT p
          ((getPage (appendPage st₁ p ([POP_JUMP_IF_TRUE] ++ u16be 0)) p).length + 1)
          (getPage stT p).length) p).length) :=
  ⟨fun cond thenN els p st st₁ stE stT condCode elseCode thenCode
      hv0 h₁ hv1 hpg1 h₂ hv2 hpg2 h₃ hv3 hpg3 =>
    compileIf_else_lemma cond thenN els p st st₁ stE stT condCode elseCode thenCode
      hv0 h₁ hv1 hpg1 h₂ hv2 hpg2 h₃ hv3 hpg3,
   fun cond thenN p st st₁ stT condCode thenCode hv0 h₁ hv1 hpg1 h₃ hv3 hpg3 =>
    compileIf_noelse_lemma cond thenN p st st₁ stT condCode thenCode
      hv0 h₁ hv1 hpg1 h₃ hv3 hpg3⟩

/-- Witness for C2: `(if 1 3 2)` — condition `1`, then-branch `3`,
else-branch `2` — at concrete states; the final page is
`LOAD_CONST 0 · POP_JUMP_IF_TRUE 12 · LOAD_CONST 1 · JUMP 15 ·
LOAD_CONST 2`. -/
theorem compileIf_spec_witness :
    _compile (.list [.keyword .If, .num 1, .num 3, .num 2]) 0 initialState =
      .ok (patch2 ⟨[], [], [], [.number 1, .number 2, .number 3],
          [[11, 0, 0, 12, 0, 12, 11, 0, 1, 16, 0, 0, 11, 0, 2]], []⟩ 0
        ((getPage (⟨[], [], [], [.number 1, .number 2],
          [[11, 0, 0, 12, 0, 0, 11, 0, 1]], []⟩ : CompState) 0).length + 1)
        (getPage (⟨[], [], [], [.number 1, .number 2, .number 3],
          [[11, 0, 0, 12, 0, 12, 11, 0, 1, 16, 0, 0, 11, 0, 2]], []⟩ : CompState) 0).length) :=
  (compileIf_spec.1 (.num 1) (.num 3) (.num 2) 0 initialState
    ⟨[], [], [], [.number 1], [[11, 0, 0]], []⟩
    ⟨[], [], [], [.number 1, .number 2], [[11, 0, 0, 12, 0, 0, 11, 0, 1]], []⟩
    ⟨[], [], [], [.number 1, .number 2, .number 3],
      [[11, 0, 0, 12, 0, 12, 11, 0, 1, 16, 0, 0, 11, 0, 2]], []⟩
    [11, 0, 0] [11, 0, 1] [11, 0, 2]
    (by decide)
    (by
      simp [_compile, addValueNode, valOfNode, lookupValIdx, initialState, appendPage,
        setPage, getPage, u16be, LOAD_CONST, except_bind_ok, except_bind_error])
    (by decide)
    rfl
    (by
      simp [_compile, addValueNode, valOfNode, lookupValIdx, initialState, appendPage,
        setPage, getPage, u16be, LOAD_CONST, POP_JUMP_IF_TRUE, except_bind_ok,
        except_bind_error])
    (by decide)
    rfl
    (by
      simp [_compile, addValueNode, valOfNode, lookupValIdx, initialState, appendPage,
        setPage, getPage, patch2, u16be, LOAD_CONST, POP_JUMP_IF_TRUE, JUMP,
        except_bind_ok, except_bind_error])
    (by decide)
    rfl).1

end Ark
